import Mathlib

/-!
Verification development for the OntoForge runtime instance engine.

The definitions below are a shallow embedding of the Python sources under
`src/backend/src/ontoforge_server/` (runtime/service.py, runtime/repository.py,
runtime/embedding.py, core/database.py, mcp/runtime.py).  Property bags and
maps are embedded as association lists in insertion order, JSON values as an
inductive type, and the neo4j driver calls as explicit data flowing through
the functions.
-/

namespace OntoForge

/-- A JSON-ish value, as it arrives in a request body (Python objects
`None`, `bool`, `int`, `float`, `str`).  Floats are carried as exact
rationals; none of the verified properties depends on float rounding. -/
inductive JValue where
  | null
  | jbool (b : Bool)
  | jint (n : Int)
  | jfloat (q : Rat)
  | jstr (s : String)
  deriving Repr, DecidableEq

/-- A coerced property value, as produced by `coerce_value` in
runtime/service.py (Python value or neo4j Date/DateTime). -/
inductive CVal where
  | vnull
  | vstr (s : String)
  | vint (n : Int)
  | vfloat (q : Rat)
  | vbool (b : Bool)
  | vdate (y m d : Nat)
  | vdatetime (y m d hh mi ss : Nat)
  deriving Repr, DecidableEq

/-- Python `str(value)` on a JSON scalar. -/
def pyStr : JValue → String
  | .null => "None"
  | .jbool true => "True"
  | .jbool false => "False"
  | .jint n => toString n
  | .jfloat q => toString q
  | .jstr s => s

/-- First-match lookup in an association list (Python `dict` access; dict
keys are unique, so first match is the only match). -/
def lookupKey (k : String) : List (String × α) → Option α
  | [] => none
  | (k2, v) :: rest => if k2 = k then some v else lookupKey k rest

/-- `PropertyDef` dataclass from runtime/service.py. -/
structure PropertyDef where
  key : String
  displayName : String
  description : Option String
  dataType : String
  required : Bool
  defaultValue : Option String
  deriving Repr, DecidableEq

/-- Fold a list of decimal digit characters to a natural number. -/
def digitsToNat (cs : List Char) : Nat :=
  cs.foldl (fun a c => a * 10 + (c.toNat - 48)) 0

/-- ASCII whitespace, as stripped by Python numeric conversion. -/
def isSpaceChar (c : Char) : Bool :=
  c = ' ' || c = '\t' || c = '\n' || c = '\r'

/-- Strip surrounding whitespace from a character list. -/
def stripSpaces (cs : List Char) : List Char :=
  ((cs.dropWhile isSpaceChar).reverse.dropWhile isSpaceChar).reverse

/-- Python `s.lower()` on ASCII text. -/
def pyLower (s : String) : String :=
  String.mk (s.data.map Char.toLower)

/-- Model of Python `int(s)` on a string: optional surrounding whitespace,
optional sign, then a nonempty run of decimal digits. -/
def pyParseInt (s : String) : Option Int :=
  let t := stripSpaces s.data
  let signAndRest : Int × List Char :=
    match t with
    | '+' :: r => (1, r)
    | '-' :: r => (-1, r)
    | r => (1, r)
  if signAndRest.2 ≠ [] ∧ signAndRest.2.all Char.isDigit then
    some (signAndRest.1 * (digitsToNat signAndRest.2 : Int))
  else none

/-- Model of Python `float(s)` on a string: optional sign, digits with an
optional fractional part (exponent forms are not modelled; no verified
property depends on them). -/
def pyParseFloat (s : String) : Option Rat :=
  let t := stripSpaces s.data
  let signAndRest : Rat × List Char :=
    match t with
    | '+' :: r => (1, r)
    | '-' :: r => (-1, r)
    | r => (1, r)
  let core := signAndRest.2
  let intPart := core.takeWhile Char.isDigit
  let rest := core.dropWhile Char.isDigit
  match rest with
  | [] =>
    if intPart ≠ [] then some (signAndRest.1 * (digitsToNat intPart : Rat)) else none
  | '.' :: frac =>
    if frac.all Char.isDigit ∧ (intPart ≠ [] ∨ frac ≠ []) ∧ (intPart ≠ [] ∨ frac ≠ []) then
      some (signAndRest.1 *
        ((digitsToNat intPart : Rat) + (digitsToNat frac : Rat) / ((10 : Rat) ^ frac.length)))
    else none
  | _ => none

/-- Leap-year rule used by `date.fromisoformat` validation. -/
def isLeap (y : Nat) : Bool :=
  (y % 4 = 0 && y % 100 ≠ 0) || y % 400 = 0

/-- Days in a month of a given year. -/
def daysInMonth (y m : Nat) : Nat :=
  if m = 2 then (if isLeap y then 29 else 28)
  else if m = 4 ∨ m = 6 ∨ m = 9 ∨ m = 11 then 30
  else 31

/-- Model of `datetime.date.fromisoformat`: a `YYYY-MM-DD` string with a
calendar-valid year, month, and day. -/
def parseIsoDate (s : String) : Option (Nat × Nat × Nat) :=
  match s.data with
  | [a, b, c, d, '-', e, f, '-', g, h] =>
    if ([a, b, c, d, e, f, g, h].all Char.isDigit) then
      let y := digitsToNat [a, b, c, d]
      let m := digitsToNat [e, f]
      let dd := digitsToNat [g, h]
      if 1 ≤ y ∧ 1 ≤ m ∧ m ≤ 12 ∧ 1 ≤ dd ∧ dd ≤ daysInMonth y m then some (y, m, dd)
      else none
    else none
  | _ => none

/-- Model of `datetime.datetime.fromisoformat`: a date, optionally followed
by a `T` or space separator and `HH:MM:SS` (fractional seconds and time
zones are not modelled; no verified property depends on them). -/
def parseIsoDatetime (s : String) : Option (Nat × Nat × Nat × Nat × Nat × Nat) :=
  let cs := s.data
  let datePart := cs.take 10
  let rest := cs.drop 10
  match parseIsoDate (String.mk datePart) with
  | none => none
  | some (y, m, d) =>
    match rest with
    | [] => some (y, m, d, 0, 0, 0)
    | sep :: timePart =>
      if sep = 'T' ∨ sep = ' ' then
        match timePart with
        | [h1, h2, ':', m1, m2, ':', s1, s2] =>
          if ([h1, h2, m1, m2, s1, s2].all Char.isDigit) then
            let hh := digitsToNat [h1, h2]
            let mi := digitsToNat [m1, m2]
            let ss := digitsToNat [s1, s2]
            if hh ≤ 23 ∧ mi ≤ 59 ∧ ss ≤ 59 then some (y, m, d, hh, mi, ss) else none
          else none
        | _ => none
      else none

/-- `coerce_value` from runtime/service.py: coerce a JSON value to the
declared data type, or fail with a descriptive message.  `ValueError`
becomes the `Except.error` branch. -/
def coerceValue (value : JValue) (dataType : String) (key : String) : Except String CVal :=
  match value with
  | .null => .ok .vnull
  | v =>
    if dataType = "string" then
      .ok (.vstr (pyStr v))
    else if dataType = "integer" then
      match v with
      | .jbool _ => .error ("Expected integer for " ++ key ++ ", got boolean")
      | .jint n => .ok (.vint n)
      | .jstr s =>
        match pyParseInt s with
        | some n => .ok (.vint n)
        | none => .error ("Expected integer for " ++ key ++ ", got " ++ s)
      | _ => .error ("Expected integer for " ++ key ++ ", got other type")
    else if dataType = "float" then
      match v with
      | .jbool _ => .error ("Expected float for " ++ key ++ ", got boolean")
      | .jint n => .ok (.vfloat (n : Rat))
      | .jfloat q => .ok (.vfloat q)
      | .jstr s =>
        match pyParseFloat s with
        | some q => .ok (.vfloat q)
        | none => .error ("Expected float for " ++ key ++ ", got " ++ s)
      | _ => .error ("Expected float for " ++ key ++ ", got other type")
    else if dataType = "boolean" then
      match v with
      | .jbool b => .ok (.vbool b)
      | .jstr s =>
        if pyLower s = "true" then .ok (.vbool true)
        else if pyLower s = "false" then .ok (.vbool false)
        else .error ("Expected boolean for " ++ key ++ ", got " ++ s)
      | _ => .error ("Expected boolean for " ++ key ++ ", got other type")
    else if dataType = "date" then
      match v with
      | .jstr s =>
        match parseIsoDate s with
        | some (y, m, d) => .ok (.vdate y m d)
        | none => .error ("Expected ISO date for " ++ key ++ ", got " ++ s)
      | _ => .error ("Expected ISO date string for " ++ key ++ ", got other type")
    else if dataType = "datetime" then
      match v with
      | .jstr s =>
        match parseIsoDatetime s with
        | some (y, m, d, hh, mi, ss) => .ok (.vdatetime y m d hh mi ss)
        | none => .error ("Expected ISO datetime for " ++ key ++ ", got " ++ s)
      | _ => .error ("Expected ISO datetime string for " ++ key ++ ", got other type")
    else
      .error ("Unknown data type " ++ dataType ++ " for " ++ key)

/-- Outcome of processing one property definition inside
`validate_properties`: contribute nothing, a coerced entry, or a field
error keyed by the property key. -/
inductive PropOutcome where
  | skip
  | coercedVal (v : CVal)
  | fieldError (msg : String)
  deriving Repr, DecidableEq

/-- The body of the second loop of `validate_properties` (runtime/service.py)
for a single property definition.  `patchMode` is the `partial` flag of the
source (create mode when false, PATCH mode when true). -/
def processDef (props : List (String × JValue)) (patchMode : Bool) (pd : PropertyDef) :
    PropOutcome :=
  match lookupKey pd.key props with
  | some value =>
    match value with
    | .null =>
      if patchMode then
        if pd.required then .fieldError "Cannot set required property to null"
        else .coercedVal .vnull
      else
        match pd.required, pd.defaultValue with
        | true, none => .fieldError "Required property missing"
        | _, some d =>
          match coerceValue (.jstr d) pd.dataType pd.key with
          | .ok c => .coercedVal c
          | .error e => .fieldError e
        | false, none => .skip
    | v =>
      match coerceValue v pd.dataType pd.key with
      | .ok c => .coercedVal c
      | .error e => .fieldError e
  | none =>
    if patchMode then .skip
    else if pd.required then
      match pd.defaultValue with
      | some d =>
        match coerceValue (.jstr d) pd.dataType pd.key with
        | .ok c => .coercedVal c
        | .error e => .fieldError e
      | none => .fieldError "Required property missing"
    else .skip

/-- The second loop of `validate_properties`, accumulating coerced entries
and field errors in definition order. -/
def coerceDefs (props : List (String × JValue)) (patchMode : Bool) :
    List PropertyDef → List (String × CVal) × List (String × String)
  | [] => ([], [])
  | pd :: rest =>
    let tail := coerceDefs props patchMode rest
    match processDef props patchMode pd with
    | .skip => tail
    | .coercedVal v => ((pd.key, v) :: tail.1, tail.2)
    | .fieldError m => (tail.1, (pd.key, m) :: tail.2)

/-- The unknown-key message emitted by the first loop of
`validate_properties`. -/
def unknownPropMsg (typeKey : String) : String :=
  "Unknown property: not defined in type " ++ typeKey

/-- `validate_properties` from runtime/service.py.  Returns the coerced
property map and the accumulated field errors (unknown-key errors first, in
input order, then definition-order errors, matching the two loops of the
source). -/
def validateProperties (props : List (String × JValue)) (defs : List PropertyDef)
    (typeKey : String) (patchMode : Bool) :
    List (String × CVal) × List (String × String) :=
  let unknownErrs := props.filterMap (fun kv =>
    if defs.any (fun pd => pd.key = kv.1) then none
    else some (kv.1, unknownPropMsg typeKey))
  let pass2 := coerceDefs props patchMode defs
  (pass2.1, unknownErrs ++ pass2.2)

/-- `ValidationError` from core/exceptions.py: a message plus per-field
details (`details` has a single `fields` entry in every raising site we
embed). -/
structure ValErr where
  message : String
  fields : List (String × String)
  deriving Repr, DecidableEq

/-- The `OPERATORS` table of `_build_filter_clauses` (runtime/service.py). -/
def opSymbol : String → Option String
  | "gt" => some ">"
  | "gte" => some ">="
  | "lt" => some "<"
  | "lte" => some "<="
  | "contains" => some "CONTAINS"
  | _ => none

/-- Model of Python `expr.rsplit("__", 1)` restricted to the way
`_build_filter_clauses` uses it: `some (pre, suf)` splits at the last
occurrence of `"__"`; `none` means `"__" not in expr`. -/
def rsplitDunder : List Char → Option (List Char × List Char)
  | [] => none
  | c :: rest =>
    match rsplitDunder rest with
    | some (pre, suf) => some (c :: pre, suf)
    | none =>
      if c = '_' then
        match rest with
        | '_' :: tail => some ([], tail)
        | _ => none
      else none

/-- Python `expr.rsplit("__", 1)` as used by `_build_filter_clauses`:
the resulting `(prop_key, op_name)` pair (with `op_name = none` when the
key contains no `"__"`). -/
def filterKeyOp (filterExpr : String) : String × Option String :=
  match rsplitDunder filterExpr.data with
  | some (pre, suf) => (String.mk pre, some (String.mk suf))
  | none => (filterExpr, none)

/-- One iteration of the `_build_filter_clauses` loop (runtime/service.py):
parse the key/operator, look the property up in the schema, coerce the
value, and emit the predicate fragment for parameter number `n`, or raise
the corresponding ValidationError. -/
def buildFilterEntry (defs : List PropertyDef) (typeKey nodeAlias : String)
    (filterExpr rawValue : String) (n : Nat) : Except ValErr (String × CVal) :=
  match defs.find? (fun pd => pd.key = (filterKeyOp filterExpr).1) with
  | none =>
    .error ⟨"Unknown filter property: " ++ (filterKeyOp filterExpr).1,
            [((filterKeyOp filterExpr).1, "Not defined in type " ++ typeKey)]⟩
  | some pd =>
    match (if (filterKeyOp filterExpr).2 = some "contains" then .ok (.vstr rawValue)
      else coerceValue (.jstr rawValue) pd.dataType (filterKeyOp filterExpr).1 :
      Except String CVal) with
    | .error e =>
      .error ⟨"Invalid filter value for " ++ (filterKeyOp filterExpr).1,
              [((filterKeyOp filterExpr).1, e)]⟩
    | .ok coercedValue =>
      match (filterKeyOp filterExpr).2 with
      | none =>
        .ok (nodeAlias ++ "." ++ (filterKeyOp filterExpr).1 ++ " = $" ++
             ("flt_" ++ toString n), coercedValue)
      | some op =>
        if op = "contains" then
          .ok ("toLower(toString(" ++ nodeAlias ++ "." ++ (filterKeyOp filterExpr).1 ++
               ")) CONTAINS toLower($" ++ ("flt_" ++ toString n) ++ ")", coercedValue)
        else
          match opSymbol op with
          | some sym =>
            .ok (nodeAlias ++ "." ++ (filterKeyOp filterExpr).1 ++ " " ++ sym ++ " $" ++
                 ("flt_" ++ toString n), coercedValue)
          | none =>
            .error ⟨"Unknown filter operator: " ++ op,
                    [(filterExpr, "Unsupported operator " ++ op)]⟩

/-- The `_build_filter_clauses` loop, with the running parameter count made
explicit (the source names each parameter `flt_{len(params)}`, and
`params` grows by exactly one per entry). -/
def buildFilterAux (defs : List PropertyDef) (typeKey nodeAlias : String) :
    List (String × String) → Nat → Except ValErr (List String × List (String × CVal))
  | [], _ => .ok ([], [])
  | (filterExpr, rawValue) :: rest, n =>
    match buildFilterEntry defs typeKey nodeAlias filterExpr rawValue n with
    | .error e => .error e
    | .ok (clause, coercedValue) =>
      match buildFilterAux defs typeKey nodeAlias rest (n + 1) with
      | .error e => .error e
      | .ok (cls, ps) => .ok (clause :: cls, ("flt_" ++ toString n, coercedValue) :: ps)

/-- `_build_filter_clauses` from runtime/service.py: WHERE-clause fragments
plus the parameter map, or the first `ValidationError` raised. -/
def buildFilterClauses (filters : List (String × String)) (defs : List PropertyDef)
    (typeKey : String) (nodeAlias : String) :
    Except ValErr (List String × List (String × CVal)) :=
  buildFilterAux defs typeKey nodeAlias filters 0

/-- The predicate fragment a successful filter entry emits, as a function
of the filter key and the parameter number alone — the filter VALUE does
not occur.  (The unreachable unknown-operator case, which can never
succeed, is mapped to the empty string.) -/
def filterClauseShape (nodeAlias : String) (filterExpr : String) (n : Nat) : String :=
  match (filterKeyOp filterExpr).2 with
  | none =>
    nodeAlias ++ "." ++ (filterKeyOp filterExpr).1 ++ " = $" ++ ("flt_" ++ toString n)
  | some op =>
    if op = "contains" then
      "toLower(toString(" ++ nodeAlias ++ "." ++ (filterKeyOp filterExpr).1 ++
        ")) CONTAINS toLower($" ++ ("flt_" ++ toString n) ++ ")"
    else
      match opSymbol op with
      | some sym =>
        nodeAlias ++ "." ++ (filterKeyOp filterExpr).1 ++ " " ++ sym ++ " $" ++
          ("flt_" ++ toString n)
      | none => ""

/-- The clause list a successful builder run emits, computed from the
filter KEYS alone (in order), starting at parameter number `n`. -/
def clausesOfKeys (nodeAlias : String) : List String → Nat → List String
  | [], _ => []
  | k :: rest, n => filterClauseShape nodeAlias k n :: clausesOfKeys nodeAlias rest (n + 1)

/-- The parameter names a successful builder run binds: `flt_n`,
`flt_{n+1}`, ... — one per filter entry, numbered consecutively. -/
def paramNames : Nat → Nat → List String
  | 0, _ => []
  | len + 1, n => ("flt_" ++ toString n) :: paramNames len (n + 1)

/-- Python string slicing `s[:n]` (code-point based, like Lean `String.data`). -/
def pySlice (s : String) (n : Nat) : String :=
  String.mk (s.data.take n)

/-- `_MAX_TEXT_CHARS` from runtime/embedding.py. -/
def MAX_TEXT_CHARS : Nat := 30000

/-- `build_text_repr` from runtime/embedding.py: serialize the string-typed,
non-null properties in definition order, prefix the type key, and cap the
length.  The truncation warning is a log line, not control flow. -/
def buildTextRepr (entityTypeKey : String) (properties : List (String × JValue))
    (propertyDefs : List PropertyDef) : String :=
  let parts := propertyDefs.foldl (fun acc pd =>
    if pd.dataType ≠ "string" then acc
    else
      match lookupKey pd.key properties with
      | some v => if v ≠ .null then acc ++ [pd.key ++ "=" ++ pyStr v] else acc
      | none => acc) []
  let text :=
    if parts ≠ [] then entityTypeKey ++ ": " ++ String.intercalate ", " parts
    else entityTypeKey
  if text.length > MAX_TEXT_CHARS then pySlice text MAX_TEXT_CHARS else text

/-- The qualifying `"key=value"` parts of the text representation written
down the way §4.7 of the spec words them: filter the definitions to the
string-typed ones present with a non-null value, in definition order. -/
def textReprPartsSpec (properties : List (String × JValue))
    (propertyDefs : List PropertyDef) : List String :=
  propertyDefs.filterMap (fun pd =>
    if pd.dataType = "string" then
      match lookupKey pd.key properties with
      | some v => if v = .null then none else some (pd.key ++ "=" ++ pyStr v)
      | none => none
    else none)

/-- The assembled (pre-truncation) text of §4.7: bare type key when no
property qualifies, otherwise the key, a colon and space, and the comma
joined parts. -/
def assembledTextSpec (entityTypeKey : String) (properties : List (String × JValue))
    (propertyDefs : List PropertyDef) : String :=
  match textReprPartsSpec properties propertyDefs with
  | [] => entityTypeKey
  | parts => entityTypeKey ++ ": " ++ String.intercalate ", " parts

/-- ASCII lowercase letter test. -/
def isLowerAlpha (c : Char) : Bool :=
  97 ≤ c.toNat && c.toNat ≤ 122

/-- ASCII uppercase letter test. -/
def isUpperAlpha (c : Char) : Bool :=
  65 ≤ c.toNat && c.toNat ≤ 90

/-- ASCII decimal digit test. -/
def isDigitChar (c : Char) : Bool :=
  48 ≤ c.toNat && c.toNat ≤ 57

/-- Model of Python `key.split("_")` (single-character separator; empty
segments are kept, and the result is never the empty list). -/
def pySplitUnderscore : List Char → List (List Char)
  | [] => [[]]
  | c :: rest =>
    if c = '_' then [] :: pySplitUnderscore rest
    else
      match pySplitUnderscore rest with
      | s :: ss => (c :: s) :: ss
      | [] => [[c]]

/-- Model of Python `segment.capitalize()` on ASCII text: first character
uppercased, the remainder lowercased. -/
def pyCapitalize : List Char → List Char
  | [] => []
  | c :: rest => c.toUpper :: rest.map Char.toLower

/-- `to_pascal_case` from runtime/service.py (identical to `_to_pascal_case`
in core/database.py): split on `_`, capitalize each segment, concatenate. -/
def toPascalCase (key : String) : String :=
  String.join ((pySplitUnderscore key.data).map (fun seg => String.mk (pyCapitalize seg)))

/-- A well-formed snake_case key in the sense of claim C10: every
underscore-separated segment is nonempty, starts with a lowercase letter,
and continues with lowercase letters or digits. -/
def isWfSeg : List Char → Bool
  | [] => false
  | c :: rest => isLowerAlpha c && rest.all (fun d => isLowerAlpha d || isDigitChar d)

/-- All segments of the key are well formed. -/
def wellFormedKey (key : String) : Bool :=
  (pySplitUnderscore key.data).all isWfSeg

/-- Inverse of `pySplitUnderscore`: re-join segments with `_`. -/
def joinUnderscore : List (List Char) → List Char
  | [] => []
  | [s] => s
  | s :: rest => s ++ '_' :: joinUnderscore rest

/-- A relation instance record as persisted by runtime/repository.py:
system id, relation type key, immutable endpoint references, and the
user-property bag. -/
structure RelationRec where
  id : String
  typeKey : String
  fromEntityId : String
  toEntityId : String
  props : List (String × CVal)
  deriving Repr, DecidableEq

/-- Model of Cypher `SET r += $set_properties`: existing keys are
overwritten, new keys appended. -/
def mergeProps (props patch : List (String × CVal)) : List (String × CVal) :=
  props.map (fun kv =>
    match lookupKey kv.1 patch with
    | some v => (kv.1, v)
    | none => kv) ++
  patch.filter (fun kv => lookupKey kv.1 props = none)

/-- Model of the `REMOVE r.k` clauses: drop the named keys. -/
def removeKeys (props : List (String × CVal)) (ks : List String) : List (String × CVal) :=
  props.filter (fun kv => decide (kv.1 ∉ ks))

/-- `update_relation` from runtime/repository.py applied to a found
relation: apply the SET clause, then the REMOVE clauses; the MATCH pattern
leaves the endpoints untouched. -/
def repoUpdateRelation (rel : RelationRec) (setProperties : List (String × CVal))
    (removeProperties : List String) : RelationRec :=
  { rel with props := removeKeys (mergeProps rel.props setProperties) removeProperties }

/-- `update_relation` from runtime/service.py, acting on an existing
relation `rel`: pop `fromEntityId`/`toEntityId` from the body, validate the
rest in PATCH mode, split set vs remove, short-circuit to a read on an
empty effective change, otherwise apply the repository update. -/
def updateRelation (rtProps : List PropertyDef) (typeKey : String) (rel : RelationRec)
    (body : List (String × JValue)) : Except ValErr RelationRec :=
  let body2 := body.filter (fun kv => kv.1 ≠ "fromEntityId" ∧ kv.1 ≠ "toEntityId")
  let vp := validateProperties body2 rtProps typeKey true
  if vp.2 ≠ [] then .error ⟨"Instance validation failed", vp.2⟩
  else
    let setPs := vp.1.filter (fun kv => kv.2 ≠ CVal.vnull)
    let removePs := (vp.1.filter (fun kv => kv.2 = CVal.vnull)).map Prod.fst
    if setPs = [] ∧ removePs = [] then .ok rel
    else .ok (repoUpdateRelation rel setPs removePs)

/-- One neighbor entry returned by `get_neighbors` in
runtime/repository.py: the relation record, the `direction` field the code
adds to it, and the neighboring entity (entities are opaque property bags
here). -/
structure NeighborItem where
  relation : List (String × CVal)
  direction : String
  entity : List (String × CVal)
  deriving Repr, DecidableEq

/-- `get_neighbors` from runtime/repository.py.  `outRels` / `inRels` are
the rows the outgoing / incoming MATCH patterns produce (already filtered
to the requested relation type by the pattern), in the order the store
returns them; `LIMIT` becomes `List.take`. -/
def getNeighbors (outRels inRels : List (List (String × CVal) × List (String × CVal)))
    (direction : String) (limit : Nat) : List NeighborItem :=
  if direction = "both" then
    let outs := (outRels.take limit).map (fun p => NeighborItem.mk p.1 "outgoing" p.2)
    let remaining := limit - outs.length
    let ins :=
      if remaining > 0 then
        (inRels.take remaining).map (fun p => NeighborItem.mk p.1 "incoming" p.2)
      else []
    outs ++ ins
  else
    let rows := if direction = "outgoing" then outRels else inRels
    (rows.take limit).map (fun p => NeighborItem.mk p.1 direction p.2)

/-- Modelled from the spec: the runtime-service function `semantic_search`
is absent from the source tree (only its MCP tool wrapper in
mcp/runtime.py and its unit tests are present), so the candidate-fetch
pipeline is taken from §4.6 of the spec.  `index` is the similarity index
ranking for the query vector (best first); `pred` is the conjunction of
the §4.3 filter predicates built from `filters`; the vector lookup
requests `min(limit*5, 500)` candidates when filters are present and
exactly `limit` otherwise, then filters, applies `minScore`, and truncates
to `limit`.  The first component is the candidate count requested from the
index. -/
def semanticSearch (index : List (List (String × CVal) × Rat))
    (pred : List (String × CVal) → Bool) (filters : List (String × String))
    (limit : Nat) (minScore : Option Rat) :
    Nat × List (List (String × CVal) × Rat) :=
  let vectorLimit := if filters.isEmpty then limit else min (limit * 5) 500
  let candidates := index.take vectorLimit
  let filtered :=
    if filters.isEmpty then candidates else candidates.filter (fun p => pred p.1)
  let scored : List (List (String × CVal) × Rat) :=
    match minScore with
    | some ms => filtered.filter (fun p => ms ≤ p.2)
    | none => filtered
  (vectorLimit, scored.take limit)

/-! ### Generic helper lemmas -/

theorem lookupKey_eq_none_iff {α : Type} (k : String) (l : List (String × α)) :
    lookupKey k l = none ↔ k ∉ l.map Prod.fst := by
  induction l with
  | nil => simp [lookupKey]
  | cons kv rest ih =>
    obtain ⟨k2, v⟩ := kv
    by_cases h : k2 = k
    · subst h
      simp [lookupKey]
    · simp [lookupKey, h, ih, Ne.symm h]

theorem lookupKey_isSome_of_mem {α : Type} {k : String} {v : α} {l : List (String × α)}
    (h : (k, v) ∈ l) : lookupKey k l ≠ none := by
  intro hnone
  rw [lookupKey_eq_none_iff] at hnone
  exact hnone (List.mem_map.mpr ⟨(k, v), h, rfl⟩)

theorem mem_of_lookupKey_eq_some {α : Type} {k : String} {v : α} {l : List (String × α)}
    (h : lookupKey k l = some v) : (k, v) ∈ l := by
  induction l with
  | nil => simp [lookupKey] at h
  | cons kv rest ih =>
    obtain ⟨k2, w⟩ := kv
    by_cases hk : k2 = k
    · subst hk
      simp [lookupKey] at h
      simp [h]
    · simp [lookupKey, hk] at h
      exact List.mem_cons_of_mem _ (ih h)

theorem lookupKey_eq_some_of_mem_nodup {α : Type} {k : String} {v : α} {l : List (String × α)}
    (hnd : (l.map Prod.fst).Nodup) (h : (k, v) ∈ l) : lookupKey k l = some v := by
  induction l with
  | nil => simp at h
  | cons kv rest ih =>
    obtain ⟨k2, w⟩ := kv
    simp only [List.map_cons, List.nodup_cons] at hnd
    rcases List.mem_cons.mp h with heq | hrest
    · rw [Prod.mk.injEq] at heq
      obtain ⟨rfl, rfl⟩ := heq
      simp [lookupKey]
    · have hk : k2 ≠ k := by
        rintro rfl
        exact hnd.1 (List.mem_map.mpr ⟨(k2, v), hrest, rfl⟩)
      simp [lookupKey, hk]
      exact ih hnd.2 hrest

/-- The defined-key test used by the source (`key in property_defs`) agrees
with the `lookupKey`-style membership. -/
theorem any_key_iff_mem {defs : List PropertyDef} {k : String} :
    (defs.any (fun pd => pd.key = k)) = true ↔ ∃ pd ∈ defs, pd.key = k := by
  simp [List.any_eq_true]

/-! ### C6: neighbor budget split -/

/-- C6: for `direction = both` and limit `L`, `get_neighbors` returns
`min O L` outgoing rows first, then `min I (L - min O L)` incoming rows,
each tagged with its direction relative to the queried entity. -/
theorem getNeighbors_both_budget_split
    (outRels inRels : List (List (String × CVal) × List (String × CVal))) (L : Nat) :
    (getNeighbors outRels inRels "both" L).length
        = min outRels.length L + min inRels.length (L - min outRels.length L)
    ∧ (getNeighbors outRels inRels "both" L).take (min outRels.length L)
        = (outRels.take L).map (fun p => NeighborItem.mk p.1 "outgoing" p.2)
    ∧ (getNeighbors outRels inRels "both" L).drop (min outRels.length L)
        = (inRels.take (L - min outRels.length L)).map
            (fun p => NeighborItem.mk p.1 "incoming" p.2)
    ∧ ∀ it ∈ getNeighbors outRels inRels "both" L,
        it.direction = "outgoing" ∨ it.direction = "incoming" := by
  have hout : ((outRels.take L).map
      (fun p => NeighborItem.mk p.1 "outgoing" p.2)).length = min outRels.length L := by
    simp [Nat.min_comm]
  have hboth : getNeighbors outRels inRels "both" L
      = (outRels.take L).map (fun p => NeighborItem.mk p.1 "outgoing" p.2)
        ++ (inRels.take (L - min outRels.length L)).map
            (fun p => NeighborItem.mk p.1 "incoming" p.2) := by
    unfold getNeighbors
    rw [if_pos rfl]
    simp only [List.length_map, List.length_take]
    rcases Nat.eq_zero_or_pos (L - min L outRels.length) with hz | hp
    · rw [if_neg (by omega)]
      rw [Nat.min_comm] at hz
      simp [hz]
    · rw [if_pos (by omega), Nat.min_comm]
  refine ⟨?_, ?_, ?_, ?_⟩
  · rw [hboth]
    simp [Nat.min_comm outRels.length L, Nat.min_comm inRels.length]
  · rw [hboth, List.take_left' hout]
  · rw [hboth, List.drop_left' hout]
  · intro it hit
    rw [hboth] at hit
    rcases List.mem_append.mp hit with h | h <;>
      obtain ⟨p, _, rfl⟩ := List.mem_map.mp h
    · exact Or.inl rfl
    · exact Or.inr rfl

/-! ### C9: text representation builder -/

theorem foldl_append_eq_filterMap {α γ : Type} (g : α → Option γ)
    (f : List γ → α → List γ)
    (hf : ∀ acc x, f acc x =
      match g x with
      | some u => acc ++ [u]
      | none => acc)
    (l : List α) (acc : List γ) :
    l.foldl f acc = acc ++ l.filterMap g := by
  induction l generalizing acc with
  | nil => simp
  | cons x rest ih =>
    rw [List.foldl_cons, hf, List.filterMap_cons]
    cases hg : g x with
    | none => simp [ih]
    | some u => simp [ih]

theorem textRepr_foldl_eq_filterMap (properties : List (String × JValue))
    (propertyDefs : List PropertyDef) (acc : List String) :
    propertyDefs.foldl (fun acc pd =>
      if pd.dataType ≠ "string" then acc
      else
        match lookupKey pd.key properties with
        | some v => if v ≠ .null then acc ++ [pd.key ++ "=" ++ pyStr v] else acc
        | none => acc) acc
    = acc ++ textReprPartsSpec properties propertyDefs := by
  refine foldl_append_eq_filterMap
    (fun pd : PropertyDef =>
      if pd.dataType = "string" then
        match lookupKey pd.key properties with
        | some v => if v = .null then none else some (pd.key ++ "=" ++ pyStr v)
        | none => none
      else none) _ ?_ propertyDefs acc
  intro acc pd
  by_cases hs : pd.dataType = "string"
  · cases hv : lookupKey pd.key properties with
    | none => simp [hs, hv]
    | some v =>
      by_cases hnull : v = JValue.null
      · simp [hs, hv, hnull]
      · simp [hs, hv, hnull]
  · simp [hs]

theorem pySlice_of_length_le {s : String} {n : Nat} (h : s.length ≤ n) :
    pySlice s n = s := by
  unfold pySlice
  rw [List.take_of_length_le h]

theorem pySlice_length (s : String) (n : Nat) :
    (pySlice s n).length = min s.length n := by
  show (s.data.take n).length = min s.length n
  rw [List.length_take, Nat.min_comm]
  rfl

/-- C9: `build_text_repr` produces exactly the §4.7 text — the type key,
then `": "` and the comma-joined `key=value` parts for the string-typed,
present, non-null properties in definition order (bare type key when no
part qualifies) — truncated to the 30,000-character cap, its length being
the minimum of the assembled length and the cap. -/
theorem buildTextRepr_spec (entityTypeKey : String) (properties : List (String × JValue))
    (propertyDefs : List PropertyDef) :
    buildTextRepr entityTypeKey properties propertyDefs
        = pySlice (assembledTextSpec entityTypeKey properties propertyDefs) MAX_TEXT_CHARS
    ∧ (buildTextRepr entityTypeKey properties propertyDefs).length
        = min (assembledTextSpec entityTypeKey properties propertyDefs).length MAX_TEXT_CHARS := by
  have hassembled :
      (if textReprPartsSpec properties propertyDefs ≠ [] then
        entityTypeKey ++ ": " ++ String.intercalate ", " (textReprPartsSpec properties propertyDefs)
       else entityTypeKey)
      = assembledTextSpec entityTypeKey properties propertyDefs := by
    unfold assembledTextSpec
    cases textReprPartsSpec properties propertyDefs with
    | nil => simp
    | cons p ps => simp
  have hmain : buildTextRepr entityTypeKey properties propertyDefs
      = pySlice (assembledTextSpec entityTypeKey properties propertyDefs) MAX_TEXT_CHARS := by
    unfold buildTextRepr
    rw [textRepr_foldl_eq_filterMap properties propertyDefs []]
    simp only [List.nil_append]
    rw [hassembled]
    by_cases hlen :
        (assembledTextSpec entityTypeKey properties propertyDefs).length > MAX_TEXT_CHARS
    · rw [if_pos hlen]
    · rw [if_neg hlen, pySlice_of_length_le (by omega)]
  refine ⟨hmain, ?_⟩
  rw [hmain, pySlice_length]

/-! ### Lemmas about validate_properties -/

theorem coerceDefs_mem_coerced {props : List (String × JValue)} {pm : Bool}
    {defs : List PropertyDef} {pd : PropertyDef} {c : CVal}
    (hpd : pd ∈ defs) (h : processDef props pm pd = .coercedVal c) :
    (pd.key, c) ∈ (coerceDefs props pm defs).1 := by
  induction defs with
  | nil => simp at hpd
  | cons hd tl ih =>
    rcases List.mem_cons.mp hpd with heq | htl
    · subst heq
      simp [coerceDefs, h]
    · cases ho : processDef props pm hd <;>
        simp [coerceDefs, ho, ih htl]

theorem coerceDefs_mem_errors {props : List (String × JValue)} {pm : Bool}
    {defs : List PropertyDef} {pd : PropertyDef} {m : String}
    (hpd : pd ∈ defs) (h : processDef props pm pd = .fieldError m) :
    (pd.key, m) ∈ (coerceDefs props pm defs).2 := by
  induction defs with
  | nil => simp at hpd
  | cons hd tl ih =>
    rcases List.mem_cons.mp hpd with heq | htl
    · subst heq
      simp [coerceDefs, h]
    · cases ho : processDef props pm hd <;>
        simp [coerceDefs, ho, ih htl]

theorem coerceDefs_coerced_src {props : List (String × JValue)} {pm : Bool}
    {defs : List PropertyDef} {k : String} {c : CVal}
    (h : (k, c) ∈ (coerceDefs props pm defs).1) :
    ∃ pd ∈ defs, pd.key = k ∧ processDef props pm pd = .coercedVal c := by
  induction defs with
  | nil => simp [coerceDefs] at h
  | cons hd tl ih =>
    cases ho : processDef props pm hd with
    | skip =>
      simp only [coerceDefs, ho] at h
      obtain ⟨pd, hin, hk, hp⟩ := ih h
      exact ⟨pd, List.mem_cons_of_mem _ hin, hk, hp⟩
    | coercedVal v =>
      simp only [coerceDefs, ho, List.mem_cons] at h
      rcases h with heq | h
      · rw [Prod.mk.injEq] at heq
        refine ⟨hd, List.mem_cons_self hd tl, heq.1.symm, ?_⟩
        rw [heq.2]
        exact ho
      · obtain ⟨pd, hin, hk, hp⟩ := ih h
        exact ⟨pd, List.mem_cons_of_mem _ hin, hk, hp⟩
    | fieldError m =>
      simp only [coerceDefs, ho] at h
      obtain ⟨pd, hin, hk, hp⟩ := ih h
      exact ⟨pd, List.mem_cons_of_mem _ hin, hk, hp⟩

theorem coerceDefs_errors_src {props : List (String × JValue)} {pm : Bool}
    {defs : List PropertyDef} {k : String} {m : String}
    (h : (k, m) ∈ (coerceDefs props pm defs).2) :
    ∃ pd ∈ defs, pd.key = k ∧ processDef props pm pd = .fieldError m := by
  induction defs with
  | nil => simp [coerceDefs] at h
  | cons hd tl ih =>
    cases ho : processDef props pm hd with
    | skip =>
      simp only [coerceDefs, ho] at h
      obtain ⟨pd, hin, hk, hp⟩ := ih h
      exact ⟨pd, List.mem_cons_of_mem _ hin, hk, hp⟩
    | coercedVal v =>
      simp only [coerceDefs, ho] at h
      obtain ⟨pd, hin, hk, hp⟩ := ih h
      exact ⟨pd, List.mem_cons_of_mem _ hin, hk, hp⟩
    | fieldError m2 =>
      simp only [coerceDefs, ho, List.mem_cons] at h
      rcases h with heq | h
      · rw [Prod.mk.injEq] at heq
        refine ⟨hd, List.mem_cons_self hd tl, heq.1.symm, ?_⟩
        rw [heq.2]
        exact ho
      · obtain ⟨pd, hin, hk, hp⟩ := ih h
        exact ⟨pd, List.mem_cons_of_mem _ hin, hk, hp⟩

theorem coerceDefs_coerced_keys_sublist (props : List (String × JValue)) (pm : Bool)
    (defs : List PropertyDef) :
    ((coerceDefs props pm defs).1.map Prod.fst).Sublist (defs.map PropertyDef.key) := by
  induction defs with
  | nil => simp [coerceDefs]
  | cons hd tl ih =>
    cases ho : processDef props pm hd with
    | skip =>
      simp only [coerceDefs, ho, List.map_cons]
      exact ih.cons _
    | coercedVal v =>
      simp only [coerceDefs, ho, List.map_cons]
      exact ih.cons₂ _
    | fieldError m =>
      simp only [coerceDefs, ho, List.map_cons]
      exact ih.cons _

theorem coerceDefs_errors_keys_sublist (props : List (String × JValue)) (pm : Bool)
    (defs : List PropertyDef) :
    ((coerceDefs props pm defs).2.map Prod.fst).Sublist (defs.map PropertyDef.key) := by
  induction defs with
  | nil => simp [coerceDefs]
  | cons hd tl ih =>
    cases ho : processDef props pm hd with
    | skip =>
      simp only [coerceDefs, ho, List.map_cons]
      exact ih.cons _
    | coercedVal v =>
      simp only [coerceDefs, ho, List.map_cons]
      exact ih.cons _
    | fieldError m =>
      simp only [coerceDefs, ho, List.map_cons]
      exact ih.cons₂ _

theorem unknownErrs_keys_sublist (props : List (String × JValue))
    (defs : List PropertyDef) (tk : String) :
    ((props.filterMap (fun kv =>
      if defs.any (fun pd => pd.key = kv.1) then none
      else some (kv.1, unknownPropMsg tk))).map Prod.fst).Sublist (props.map Prod.fst) := by
  induction props with
  | nil => simp
  | cons kv rest ih =>
    rw [List.filterMap_cons]
    by_cases hany : defs.any (fun pd => pd.key = kv.1) = true
    · simp only [hany, if_pos rfl, List.map_cons]
      exact ih.cons _
    · rw [if_neg hany]
      simp only [List.map_cons]
      exact ih.cons₂ _

theorem mem_unknownErrs {props : List (String × JValue)} {defs : List PropertyDef}
    {tk k : String} {v : JValue}
    (hmem : (k, v) ∈ props) (hnk : ∀ pd ∈ defs, pd.key ≠ k) :
    (k, unknownPropMsg tk) ∈ props.filterMap (fun kv =>
      if defs.any (fun pd => pd.key = kv.1) then none
      else some (kv.1, unknownPropMsg tk)) := by
  refine List.mem_filterMap.mpr ⟨(k, v), hmem, ?_⟩
  rw [if_neg]
  intro hany
  obtain ⟨pd, hin, hk⟩ := List.any_eq_true.mp hany
  exact hnk pd hin (by simpa using hk)

theorem unknownErrs_src {props : List (String × JValue)} {defs : List PropertyDef}
    {tk k m : String}
    (h : (k, m) ∈ props.filterMap (fun kv =>
      if defs.any (fun pd => pd.key = kv.1) then none
      else some (kv.1, unknownPropMsg tk))) :
    k ∈ props.map Prod.fst ∧ defs.any (fun pd => pd.key = k) = false := by
  obtain ⟨kv, hin, hres⟩ := List.mem_filterMap.mp h
  by_cases hany : defs.any (fun pd => pd.key = kv.1) = true
  · rw [if_pos hany] at hres
    exact absurd hres (by simp)
  · rw [if_neg hany] at hres
    simp only [Option.some.injEq, Prod.mk.injEq] at hres
    obtain ⟨hk, -⟩ := hres
    subst hk
    exact ⟨List.mem_map.mpr ⟨kv, hin, rfl⟩, by simpa using hany⟩

/-- The error list of a `validate_properties` call carries at most one
entry per property key, provided the input bag and the definitions have
unique keys (as Python dicts do). -/
theorem validateProperties_errors_keys_nodup (props : List (String × JValue))
    (defs : List PropertyDef) (tk : String) (pm : Bool)
    (hpnd : (props.map Prod.fst).Nodup) (hdnd : (defs.map PropertyDef.key).Nodup) :
    ((validateProperties props defs tk pm).2.map Prod.fst).Nodup := by
  unfold validateProperties
  simp only [List.map_append]
  refine List.Nodup.append ((unknownErrs_keys_sublist props defs tk).nodup hpnd)
    ((coerceDefs_errors_keys_sublist props pm defs).nodup hdnd) ?_
  intro k hk1 hk2
  obtain ⟨⟨k1, m1⟩, hin1, hfst1⟩ := List.mem_map.mp hk1
  obtain ⟨⟨k2, m2⟩, hin2, hfst2⟩ := List.mem_map.mp hk2
  simp only at hfst1 hfst2
  obtain ⟨-, hany⟩ := unknownErrs_src hin1
  obtain ⟨pd, hinpd, hkey, -⟩ := coerceDefs_errors_src hin2
  have htrue : defs.any (fun pd2 => pd2.key = k1) = true :=
    List.any_eq_true.mpr ⟨pd, hinpd, by simp [hkey, hfst2, hfst1]⟩
  rw [htrue] at hany
  cases hany

theorem validateProperties_eq (props : List (String × JValue)) (defs : List PropertyDef)
    (tk : String) (pm : Bool) :
    validateProperties props defs tk pm =
      ((coerceDefs props pm defs).1,
        (props.filterMap (fun kv =>
          if defs.any (fun pd => pd.key = kv.1) then none
          else some (kv.1, unknownPropMsg tk))) ++ (coerceDefs props pm defs).2) := rfl

theorem lookupKey_coerced_eq_none {props : List (String × JValue)} {pm : Bool}
    {defs : List PropertyDef} {pd : PropertyDef}
    (hdnd : (defs.map PropertyDef.key).Nodup) (hpd : pd ∈ defs)
    (h : ∀ c, processDef props pm pd ≠ .coercedVal c) :
    lookupKey pd.key (coerceDefs props pm defs).1 = none := by
  rw [lookupKey_eq_none_iff]
  intro hk
  obtain ⟨⟨k2, c⟩, hin, hfst⟩ := List.mem_map.mp hk
  simp only at hfst
  obtain ⟨pd2, hin2, hkey2, hproc⟩ := coerceDefs_coerced_src hin
  have heq : pd2 = pd :=
    List.inj_on_of_nodup_map hdnd hin2 hpd (by rw [hkey2, hfst])
  rw [heq] at hproc
  exact h c hproc

theorem lookupKey_defErrs_eq_none {props : List (String × JValue)} {pm : Bool}
    {defs : List PropertyDef} {pd : PropertyDef}
    (hdnd : (defs.map PropertyDef.key).Nodup) (hpd : pd ∈ defs)
    (h : ∀ m, processDef props pm pd ≠ .fieldError m) :
    lookupKey pd.key (coerceDefs props pm defs).2 = none := by
  rw [lookupKey_eq_none_iff]
  intro hk
  obtain ⟨⟨k2, m⟩, hin, hfst⟩ := List.mem_map.mp hk
  simp only at hfst
  obtain ⟨pd2, hin2, hkey2, hproc⟩ := coerceDefs_errors_src hin
  have heq : pd2 = pd :=
    List.inj_on_of_nodup_map hdnd hin2 hpd (by rw [hkey2, hfst])
  rw [heq] at hproc
  exact h m hproc

theorem lookupKey_unknownErrs_eq_none {props : List (String × JValue)}
    {defs : List PropertyDef} {tk k : String}
    (hdef : defs.any (fun pd => pd.key = k) = true) :
    lookupKey k (props.filterMap (fun kv =>
      if defs.any (fun pd => pd.key = kv.1) then none
      else some (kv.1, unknownPropMsg tk))) = none := by
  rw [lookupKey_eq_none_iff]
  intro hk
  obtain ⟨⟨k2, m⟩, hin, hfst⟩ := List.mem_map.mp hk
  simp only at hfst
  obtain ⟨-, hany⟩ := unknownErrs_src hin
  rw [hfst, hdef] at hany
  cases hany

theorem lookupKey_append_eq_none {α : Type} {k : String} {l1 l2 : List (String × α)} :
    lookupKey k (l1 ++ l2) = none ↔ lookupKey k l1 = none ∧ lookupKey k l2 = none := by
  simp [lookupKey_eq_none_iff, List.map_append, List.mem_append, not_or]

/-! ### C3: validation completeness -/

/-- C3: a single `validate_properties` call (create mode) reports every
violation at once: every unknown input key, every required-without-default
property missing from the input, and every present non-null value the
declared type cannot coerce each contribute a field error keyed by the
offending property key, and the error list has one entry per key. -/
theorem validateProperties_reports_all_violations
    (props : List (String × JValue)) (defs : List PropertyDef) (tk : String)
    (hpnd : (props.map Prod.fst).Nodup) (hdnd : (defs.map PropertyDef.key).Nodup) :
    (∀ k v, (k, v) ∈ props → (∀ pd ∈ defs, pd.key ≠ k) →
      (k, unknownPropMsg tk) ∈ (validateProperties props defs tk false).2)
    ∧ (∀ pd ∈ defs, pd.required = true → pd.defaultValue = none →
        lookupKey pd.key props = none →
      (pd.key, "Required property missing") ∈ (validateProperties props defs tk false).2)
    ∧ (∀ pd ∈ defs, ∀ v, lookupKey pd.key props = some v → v ≠ JValue.null →
        ∀ e, coerceValue v pd.dataType pd.key = .error e →
      (pd.key, e) ∈ (validateProperties props defs tk false).2)
    ∧ ((validateProperties props defs tk false).2.map Prod.fst).Nodup := by
  refine ⟨?_, ?_, ?_, validateProperties_errors_keys_nodup props defs tk false hpnd hdnd⟩
  · intro k v hmem hnk
    rw [validateProperties_eq]
    exact List.mem_append_left _ (mem_unknownErrs hmem hnk)
  · intro pd hpd hreq hdef hlook
    rw [validateProperties_eq]
    refine List.mem_append_right _ (coerceDefs_mem_errors hpd ?_)
    simp [processDef, hlook, hreq, hdef]
  · intro pd hpd v hlook hvnull e hco
    rw [validateProperties_eq]
    refine List.mem_append_right _ (coerceDefs_mem_errors hpd ?_)
    cases v with
    | null => exact absurd rfl hvnull
    | jbool b => simp [processDef, hlook, hco]
    | jint n => simp [processDef, hlook, hco]
    | jfloat q => simp [processDef, hlook, hco]
    | jstr s => simp [processDef, hlook, hco]

theorem validateProperties_reports_all_violations_witness :
    ("wat", unknownPropMsg "person") ∈ (validateProperties
        [("wat", JValue.jstr "x"), ("age", JValue.jstr "abc")]
        [PropertyDef.mk "name" "Name" none "string" true none,
         PropertyDef.mk "age" "Age" none "integer" false none] "person" false).2
    ∧ ("name", "Required property missing") ∈ (validateProperties
        [("wat", JValue.jstr "x"), ("age", JValue.jstr "abc")]
        [PropertyDef.mk "name" "Name" none "string" true none,
         PropertyDef.mk "age" "Age" none "integer" false none] "person" false).2
    ∧ ("age", "Expected integer for age, got abc") ∈ (validateProperties
        [("wat", JValue.jstr "x"), ("age", JValue.jstr "abc")]
        [PropertyDef.mk "name" "Name" none "string" true none,
         PropertyDef.mk "age" "Age" none "integer" false none] "person" false).2 := by
  have h := validateProperties_reports_all_violations
    [("wat", JValue.jstr "x"), ("age", JValue.jstr "abc")]
    [PropertyDef.mk "name" "Name" none "string" true none,
     PropertyDef.mk "age" "Age" none "integer" false none] "person"
    (by decide) (by decide)
  refine ⟨?_, ?_, ?_⟩
  · exact h.1 "wat" (JValue.jstr "x") (by simp) (by decide)
  · exact h.2.1 (PropertyDef.mk "name" "Name" none "string" true none) (by simp)
      rfl rfl (by rfl)
  · exact h.2.2.1 (PropertyDef.mk "age" "Age" none "integer" false none) (by simp)
      (JValue.jstr "abc") (by rfl) (by decide) "Expected integer for age, got abc" (by rfl)

/-! ### C4: create-mode null handling -/

/-- C4 counterexample: an optional property with a default, given an
explicit null on create, is NOT treated as if the key were absent — the
default is coerced and included in the output, whereas with the key absent
the property is omitted.  This refutes the claim that an optional property
(with or without a default) given null is always omitted. -/
theorem validateProperties_create_null_counterexample :
    validateProperties [("nickname", JValue.null)]
      [PropertyDef.mk "nickname" "Nickname" none "string" false (some "Bob")]
      "person" false
      = ([("nickname", CVal.vstr "Bob")], [])
    ∧ validateProperties []
      [PropertyDef.mk "nickname" "Nickname" none "string" false (some "Bob")]
      "person" false
      = ([], []) :=
  ⟨rfl, rfl⟩

/-- C4 amended: in create mode, a defined property whose input value is
null is handled by the default/required chain of the source: required with
no default yields the missing-property error; a property WITH a default
(required or optional) gets the coerced default included; only an optional
property WITHOUT a default is omitted entirely. -/
theorem validateProperties_create_null_semantics
    (props : List (String × JValue)) (defs : List PropertyDef) (tk : String)
    (hdnd : (defs.map PropertyDef.key).Nodup)
    (pd : PropertyDef) (hpd : pd ∈ defs)
    (hnull : lookupKey pd.key props = some JValue.null) :
    (pd.required = true → pd.defaultValue = none →
      (pd.key, "Required property missing") ∈ (validateProperties props defs tk false).2
      ∧ lookupKey pd.key (validateProperties props defs tk false).1 = none)
    ∧ (∀ d, pd.defaultValue = some d →
      (∀ c, coerceValue (.jstr d) pd.dataType pd.key = .ok c →
        (pd.key, c) ∈ (validateProperties props defs tk false).1)
      ∧ (∀ e, coerceValue (.jstr d) pd.dataType pd.key = .error e →
        (pd.key, e) ∈ (validateProperties props defs tk false).2))
    ∧ (pd.required = false → pd.defaultValue = none →
      lookupKey pd.key (validateProperties props defs tk false).1 = none
      ∧ lookupKey pd.key (validateProperties props defs tk false).2 = none) := by
  refine ⟨?_, ?_, ?_⟩
  · intro hreq hdef
    have hproc : processDef props false pd = .fieldError "Required property missing" := by
      simp [processDef, hnull, hreq, hdef]
    constructor
    · rw [validateProperties_eq]
      exact List.mem_append_right _ (coerceDefs_mem_errors hpd hproc)
    · rw [validateProperties_eq]
      exact lookupKey_coerced_eq_none hdnd hpd (by simp [hproc])
  · intro d hdef
    constructor
    · intro c hco
      have hproc : processDef props false pd = .coercedVal c := by
        cases hreq : pd.required <;> simp [processDef, hnull, hdef, hreq, hco]
      rw [validateProperties_eq]
      exact coerceDefs_mem_coerced hpd hproc
    · intro e hco
      have hproc : processDef props false pd = .fieldError e := by
        cases hreq : pd.required <;> simp [processDef, hnull, hdef, hreq, hco]
      rw [validateProperties_eq]
      exact List.mem_append_right _ (coerceDefs_mem_errors hpd hproc)
  · intro hreq hdef
    have hproc : processDef props false pd = .skip := by
      simp [processDef, hnull, hreq, hdef]
    refine ⟨?_, ?_⟩
    · rw [validateProperties_eq]
      exact lookupKey_coerced_eq_none hdnd hpd (by simp [hproc])
    · rw [validateProperties_eq]
      rw [lookupKey_append_eq_none]
      refine ⟨lookupKey_unknownErrs_eq_none ?_, lookupKey_defErrs_eq_none hdnd hpd (by simp [hproc])⟩
      exact List.any_eq_true.mpr ⟨pd, hpd, by simp⟩

theorem validateProperties_create_null_semantics_witness :
    ("title", "Required property missing") ∈ (validateProperties
      [("title", JValue.null)]
      [PropertyDef.mk "title" "Title" none "string" true none] "book" false).2 := by
  have h := validateProperties_create_null_semantics
    [("title", JValue.null)]
    [PropertyDef.mk "title" "Title" none "string" true none] "book"
    (by decide) (PropertyDef.mk "title" "Title" none "string" true none) (by simp) (by rfl)
  exact (h.1 rfl rfl).1

/-! ### C5: patch-mode (partial update) semantics -/

/-- C5: in partial (update) mode, a defined property absent from the input
contributes neither a coerced entry nor an error; a null on a required
property yields the cannot-set-null error; a null on an optional property
binds the key to null in the coerced map (remove marker); a non-null value
is coerced by the declared data type (success entering the coerced map,
failure entering the errors). -/
theorem validateProperties_patch_semantics
    (props : List (String × JValue)) (defs : List PropertyDef) (tk : String)
    (hdnd : (defs.map PropertyDef.key).Nodup)
    (pd : PropertyDef) (hpd : pd ∈ defs) :
    (lookupKey pd.key props = none →
      lookupKey pd.key (validateProperties props defs tk true).1 = none
      ∧ lookupKey pd.key (validateProperties props defs tk true).2 = none)
    ∧ (lookupKey pd.key props = some JValue.null → pd.required = true →
      (pd.key, "Cannot set required property to null")
        ∈ (validateProperties props defs tk true).2)
    ∧ (lookupKey pd.key props = some JValue.null → pd.required = false →
      (pd.key, CVal.vnull) ∈ (validateProperties props defs tk true).1)
    ∧ (∀ v, lookupKey pd.key props = some v → v ≠ JValue.null →
      (∀ c, coerceValue v pd.dataType pd.key = .ok c →
        (pd.key, c) ∈ (validateProperties props defs tk true).1)
      ∧ (∀ e, coerceValue v pd.dataType pd.key = .error e →
        (pd.key, e) ∈ (validateProperties props defs tk true).2)) := by
  refine ⟨?_, ?_, ?_, ?_⟩
  · intro hlook
    have hproc : processDef props true pd = .skip := by
      simp [processDef, hlook]
    refine ⟨?_, ?_⟩
    · rw [validateProperties_eq]
      exact lookupKey_coerced_eq_none hdnd hpd (by simp [hproc])
    · rw [validateProperties_eq]
      rw [lookupKey_append_eq_none]
      constructor
      · rw [lookupKey_eq_none_iff]
        intro hk
        have hsub := (unknownErrs_keys_sublist props defs tk).subset hk
        rw [lookupKey_eq_none_iff] at hlook
        exact hlook hsub
      · exact lookupKey_defErrs_eq_none hdnd hpd (by simp [hproc])
  · intro hlook hreq
    have hproc : processDef props true pd
        = .fieldError "Cannot set required property to null" := by
      simp [processDef, hlook, hreq]
    rw [validateProperties_eq]
    exact List.mem_append_right _ (coerceDefs_mem_errors hpd hproc)
  · intro hlook hreq
    have hproc : processDef props true pd = .coercedVal CVal.vnull := by
      simp [processDef, hlook, hreq]
    rw [validateProperties_eq]
    exact coerceDefs_mem_coerced hpd hproc
  · intro v hlook hvnull
    constructor
    · intro c hco
      have hproc : processDef props true pd = .coercedVal c := by
        cases v with
        | null => exact absurd rfl hvnull
        | jbool b => simp [processDef, hlook, hco]
        | jint n => simp [processDef, hlook, hco]
        | jfloat q => simp [processDef, hlook, hco]
        | jstr s => simp [processDef, hlook, hco]
      rw [validateProperties_eq]
      exact coerceDefs_mem_coerced hpd hproc
    · intro e hco
      have hproc : processDef props true pd = .fieldError e := by
        cases v with
        | null => exact absurd rfl hvnull
        | jbool b => simp [processDef, hlook, hco]
        | jint n => simp [processDef, hlook, hco]
        | jfloat q => simp [processDef, hlook, hco]
        | jstr s => simp [processDef, hlook, hco]
      rw [validateProperties_eq]
      exact List.mem_append_right _ (coerceDefs_mem_errors hpd hproc)

theorem validateProperties_patch_semantics_witness :
    ("email", CVal.vnull) ∈ (validateProperties [("email", JValue.null)]
      [PropertyDef.mk "email" "Email" none "string" false none] "person" true).1
    ∧ ("name", "Cannot set required property to null") ∈ (validateProperties
      [("name", JValue.null)]
      [PropertyDef.mk "name" "Name" none "string" true none] "person" true).2 := by
  constructor
  · have h := validateProperties_patch_semantics [("email", JValue.null)]
      [PropertyDef.mk "email" "Email" none "string" false none] "person"
      (by decide) (PropertyDef.mk "email" "Email" none "string" false none) (by simp)
    exact h.2.2.1 (by rfl) rfl
  · have h := validateProperties_patch_semantics [("name", JValue.null)]
      [PropertyDef.mk "name" "Name" none "string" true none] "person"
      (by decide) (PropertyDef.mk "name" "Name" none "string" true none) (by simp)
    exact h.2.1 (by rfl) rfl

/-! ### C1: semantic search over-fetch -/

/-- C1: with a non-empty filter map the vector lookup requests exactly
`min(limit*5, 500)` candidates, the filter predicate is applied to those
candidates before the final truncation to `limit` (so every returned row
satisfies it and at most `limit` rows return); with no filters exactly
`limit` candidates are requested and returned untouched. -/
theorem semanticSearch_overfetch
    (index : List (List (String × CVal) × Rat)) (pred : List (String × CVal) → Bool)
    (filters : List (String × String)) (limit : Nat) (minScore : Option Rat) :
    (filters ≠ [] →
      (semanticSearch index pred filters limit minScore).1 = min (limit * 5) 500
      ∧ (minScore = none →
        (semanticSearch index pred filters limit minScore).2 =
          ((index.take (min (limit * 5) 500)).filter (fun p => pred p.1)).take limit)
      ∧ (∀ p ∈ (semanticSearch index pred filters limit minScore).2, pred p.1 = true))
    ∧ (filters = [] →
      (semanticSearch index pred filters limit minScore).1 = limit
      ∧ (minScore = none →
        (semanticSearch index pred filters limit minScore).2 = index.take limit))
    ∧ (semanticSearch index pred filters limit minScore).2.length ≤ limit := by
  refine ⟨?_, ?_, ?_⟩
  · intro hne
    have hE : filters.isEmpty = false := by
      cases filters with
      | nil => exact absurd rfl hne
      | cons f fs => rfl
    refine ⟨?_, ?_, ?_⟩
    · simp [semanticSearch, hE]
    · intro hms
      simp [semanticSearch, hE, hms]
    · intro p hp
      cases hms : minScore with
      | none =>
        simp only [semanticSearch, hE, Bool.false_eq_true, if_false, hms] at hp
        exact (List.mem_filter.mp (List.mem_of_mem_take hp)).2
      | some ms =>
        simp only [semanticSearch, hE, Bool.false_eq_true, if_false, hms] at hp
        have hp2 := (List.mem_filter.mp (List.mem_of_mem_take hp)).1
        exact (List.mem_filter.mp hp2).2
  · intro hnil
    subst hnil
    refine ⟨?_, ?_⟩
    · simp [semanticSearch]
    · intro hms
      simp [semanticSearch, hms]
  · have hx : ∃ l : List (List (String × CVal) × Rat),
        (semanticSearch index pred filters limit minScore).2 = List.take limit l :=
      ⟨_, rfl⟩
    obtain ⟨l, hl⟩ := hx
    rw [hl, List.length_take]
    exact Nat.min_le_left _ _

theorem semanticSearch_overfetch_witness :
    (semanticSearch [([("name", CVal.vstr "a")], (1 : Rat))] (fun _ => true)
      [("location", "Berlin")] 10 none).1 = 50
    ∧ (semanticSearch [([("name", CVal.vstr "a")], (1 : Rat))] (fun _ => true)
      [] 10 none).1 = 10 := by
  constructor
  · exact (((semanticSearch_overfetch [([("name", CVal.vstr "a")], (1 : Rat))]
      (fun _ => true) [("location", "Berlin")] 10 none).1 (by simp)).1).trans (by decide)
  · exact ((semanticSearch_overfetch [([("name", CVal.vstr "a")], (1 : Rat))]
      (fun _ => true) [] 10 none).2.1 rfl).1

/-! ### C2: filter keys containing a double underscore -/

/-- C2 counterexample: the filter key `release__date` names a property that
IS defined in the type, and its suffix `date` is not a recognized
operator; the claim says the whole key is then matched by equality, but
the builder unconditionally splits on the last `__` and rejects the
prefix `release` as an unknown filter property. -/
theorem buildFilterClauses_dunder_counterexample :
    buildFilterClauses [("release__date", "2024-01-01")]
      [PropertyDef.mk "release__date" "Release date" none "date" false none]
      "movie" "n"
    = .error (ValErr.mk "Unknown filter property: release"
        [("release", "Not defined in type movie")]) := by
  rfl

/-- A single filter entry whose key splits on `__` with an unrecognized
suffix always fails (unknown property if the prefix is undefined,
otherwise invalid value or unknown operator). -/
theorem buildFilterEntry_dunder_error (defs : List PropertyDef)
    (typeKey nodeAlias expr v : String) (n : Nat) (pre suf : List Char)
    (hsplit : rsplitDunder expr.data = some (pre, suf))
    (hop : opSymbol (String.mk suf) = none) :
    ∃ e, buildFilterEntry defs typeKey nodeAlias expr v n = .error e := by
  have hko : filterKeyOp expr = (String.mk pre, some (String.mk suf)) := by
    simp [filterKeyOp, hsplit]
  have hsufne : String.mk suf ≠ "contains" := by
    intro h
    rw [h] at hop
    simp [opSymbol] at hop
  simp only [buildFilterEntry, hko]
  cases hfind : defs.find? (fun pd => pd.key = String.mk pre) with
  | none => exact ⟨_, rfl⟩
  | some pd =>
    cases hco : coerceValue (.jstr v) pd.dataType (String.mk pre) with
    | error e =>
      exact ⟨ValErr.mk ("Invalid filter value for " ++ String.mk pre)
        [(String.mk pre, e)], by simp [hsufne, hco]⟩
    | ok c =>
      exact ⟨ValErr.mk ("Unknown filter operator: " ++ String.mk suf)
        [(expr, "Unsupported operator " ++ String.mk suf)], by simp [hsufne, hco, hop]⟩

/-- Errors from any entry propagate to the whole builder call. -/
theorem buildFilterAux_cons_error (defs : List PropertyDef) (typeKey nodeAlias : String)
    (hd : String × String) (rest : List (String × String)) (n : Nat)
    (h : ∃ e, buildFilterAux defs typeKey nodeAlias rest (n + 1) = .error e) :
    ∃ e, buildFilterAux defs typeKey nodeAlias (hd :: rest) n = .error e := by
  obtain ⟨e, he⟩ := h
  obtain ⟨expr, v⟩ := hd
  simp only [buildFilterAux]
  cases hentry : buildFilterEntry defs typeKey nodeAlias expr v n with
  | error e2 => exact ⟨_, rfl⟩
  | ok pr =>
    obtain ⟨clause, cval⟩ := pr
    rw [he]
    exact ⟨_, rfl⟩

/-- C2 amended: `_build_filter_clauses` always splits a key containing
`__` at its last occurrence; when the suffix is not a recognized operator
the call raises a ValidationError (unknown filter property, invalid
filter value, or unknown filter operator) — the whole key is never
matched by equality, even when it names a defined property. -/
theorem buildFilterClauses_dunder_always_rejects
    (fs : List (String × String)) (defs : List PropertyDef) (typeKey nodeAlias : String)
    (expr v : String) (pre suf : List Char)
    (hmem : (expr, v) ∈ fs)
    (hsplit : rsplitDunder expr.data = some (pre, suf))
    (hop : opSymbol (String.mk suf) = none) :
    ∃ e, buildFilterClauses fs defs typeKey nodeAlias = .error e := by
  unfold buildFilterClauses
  generalize 0 = n
  induction fs generalizing n with
  | nil => simp at hmem
  | cons hd tl ih =>
    rcases List.mem_cons.mp hmem with heq | htl
    · obtain ⟨e, he⟩ := buildFilterEntry_dunder_error defs typeKey nodeAlias expr v n
        pre suf hsplit hop
      rw [← heq]
      simp only [buildFilterAux, he]
      exact ⟨_, rfl⟩
    · exact buildFilterAux_cons_error defs typeKey nodeAlias hd tl n (ih htl (n + 1))

theorem buildFilterClauses_dunder_always_rejects_witness :
    ∃ e, buildFilterClauses [("name", "Alice"), ("release__date", "2024-01-01")]
      [PropertyDef.mk "name" "Name" none "string" true none,
       PropertyDef.mk "release__date" "Release date" none "date" false none]
      "movie" "n" = .error e :=
  buildFilterClauses_dunder_always_rejects
    [("name", "Alice"), ("release__date", "2024-01-01")]
    [PropertyDef.mk "name" "Name" none "string" true none,
     PropertyDef.mk "release__date" "Release date" none "date" false none]
    "movie" "n" "release__date" "2024-01-01" "release".data "date".data
    (by simp) (by rfl) (by rfl)

/-! ### C8: relation updates ignore endpoint fields -/

theorem lookupKey_append {α : Type} (k : String) (l1 l2 : List (String × α)) :
    lookupKey k (l1 ++ l2) =
      match lookupKey k l1 with
      | some v => some v
      | none => lookupKey k l2 := by
  induction l1 with
  | nil => simp [lookupKey]
  | cons kv rest ih =>
    obtain ⟨k2, v⟩ := kv
    by_cases h : k2 = k
    · simp [lookupKey, h]
    · simp [lookupKey, h, ih]

theorem lookupKey_filter_eq_none {α : Type} {k : String} {l : List (String × α)}
    (p : String × α → Bool) (h : lookupKey k l = none) :
    lookupKey k (l.filter p) = none := by
  rw [lookupKey_eq_none_iff] at h ⊢
  intro hk
  obtain ⟨kv, hin, hfst⟩ := List.mem_map.mp hk
  exact h (List.mem_map.mpr ⟨kv, (List.mem_filter.mp hin).1, hfst⟩)

theorem lookupKey_mergeProps_of_patch_none {props patch : List (String × CVal)} {k : String}
    (h : lookupKey k patch = none) :
    lookupKey k (mergeProps props patch) = lookupKey k props := by
  unfold mergeProps
  rw [lookupKey_append]
  have hmap : lookupKey k (props.map (fun kv =>
      match lookupKey kv.1 patch with
      | some v => (kv.1, v)
      | none => kv)) = lookupKey k props := by
    induction props with
    | nil => simp
    | cons kv rest ih =>
      obtain ⟨k2, v⟩ := kv
      by_cases hk : k2 = k
      · subst hk
        cases hpatch : lookupKey k2 patch with
        | none => simp [lookupKey, hpatch]
        | some w =>
          rw [hpatch] at h
          cases h
      · cases hpatch : lookupKey k2 patch with
        | none => simp [lookupKey, hpatch, hk, ih]
        | some w => simp [lookupKey, hpatch, hk, ih]
  rw [hmap]
  cases hp : lookupKey k props with
  | some v => rfl
  | none =>
    simp only []
    exact lookupKey_filter_eq_none _ h

theorem lookupKey_removeKeys_of_not_mem {props : List (String × CVal)} {ks : List String}
    {k : String} (h : k ∉ ks) :
    lookupKey k (removeKeys props ks) = lookupKey k props := by
  unfold removeKeys
  induction props with
  | nil => simp [lookupKey]
  | cons kv rest ih =>
    obtain ⟨k2, v⟩ := kv
    rw [List.filter_cons]
    by_cases hk : k2 = k
    · subst hk
      rw [if_pos (by simpa using h)]
      simp [lookupKey]
    · by_cases hmem : k2 ∈ ks
      · rw [if_neg (by simpa using hmem)]
        rw [ih]
        simp [lookupKey, hk]
      · rw [if_pos (by simpa using hmem)]
        simp only [lookupKey, if_neg hk]
        exact ih

theorem coerceDefs_patch_coerced_key_mem_props {props : List (String × JValue)}
    {defs : List PropertyDef} {k : String} {c : CVal}
    (h : (k, c) ∈ (coerceDefs props true defs).1) :
    k ∈ props.map Prod.fst := by
  obtain ⟨pd, hin, hkey, hproc⟩ := coerceDefs_coerced_src h
  subst hkey
  by_contra hk
  rw [← lookupKey_eq_none_iff] at hk
  rw [processDef, hk] at hproc
  simp at hproc

theorem validateProperties_errors_key_src {props : List (String × JValue)}
    {defs : List PropertyDef} {tk : String} {pm : Bool} {k m : String}
    (h : (k, m) ∈ (validateProperties props defs tk pm).2) :
    k ∈ props.map Prod.fst ∨ ∃ pd ∈ defs, pd.key = k := by
  rw [validateProperties_eq] at h
  rcases List.mem_append.mp h with h1 | h2
  · exact Or.inl (unknownErrs_src h1).1
  · obtain ⟨pd, hin, hkey, -⟩ := coerceDefs_errors_src h2
    exact Or.inr ⟨pd, hin, hkey⟩

/-- C8: `update_relation` silently ignores `fromEntityId`/`toEntityId` in
the body.  On success the relation's endpoint references (and id and type
key) are exactly what they were before the update, and property keys not
named in the body — as well as the two endpoint fields themselves — are
unchanged; on failure the field errors never mention the endpoint
fields. -/
theorem updateRelation_endpoints_immutable
    (rtProps : List PropertyDef) (typeKey : String) (rel : RelationRec)
    (body : List (String × JValue))
    (hkeys : ∀ pd ∈ rtProps, pd.key ≠ "fromEntityId" ∧ pd.key ≠ "toEntityId") :
    (∀ r2, updateRelation rtProps typeKey rel body = .ok r2 →
      r2.fromEntityId = rel.fromEntityId ∧ r2.toEntityId = rel.toEntityId
      ∧ r2.id = rel.id ∧ r2.typeKey = rel.typeKey
      ∧ ∀ k, (lookupKey k body = none ∨ k = "fromEntityId" ∨ k = "toEntityId") →
        lookupKey k r2.props = lookupKey k rel.props)
    ∧ (∀ e, updateRelation rtProps typeKey rel body = .error e →
      lookupKey "fromEntityId" e.fields = none
      ∧ lookupKey "toEntityId" e.fields = none) := by
  have hbody2none : ∀ k, (lookupKey k body = none ∨ k = "fromEntityId" ∨ k = "toEntityId") →
      lookupKey k (body.filter
        (fun kv => kv.1 ≠ "fromEntityId" ∧ kv.1 ≠ "toEntityId")) = none := by
    intro k hk
    rcases hk with hnone | hfrom | hto
    · exact lookupKey_filter_eq_none _ hnone
    · subst hfrom
      rw [lookupKey_eq_none_iff]
      intro hmem
      obtain ⟨kv, hin, hfst⟩ := List.mem_map.mp hmem
      have := (List.mem_filter.mp hin).2
      rw [hfst] at this
      simp at this
    · subst hto
      rw [lookupKey_eq_none_iff]
      intro hmem
      obtain ⟨kv, hin, hfst⟩ := List.mem_map.mp hmem
      have := (List.mem_filter.mp hin).2
      rw [hfst] at this
      simp at this
  have hsetnone : ∀ k, (lookupKey k body = none ∨ k = "fromEntityId" ∨ k = "toEntityId") →
      lookupKey k ((validateProperties
        (body.filter (fun kv => kv.1 ≠ "fromEntityId" ∧ kv.1 ≠ "toEntityId"))
        rtProps typeKey true).1.filter (fun kv => kv.2 ≠ CVal.vnull)) = none := by
    intro k hk
    rw [lookupKey_eq_none_iff]
    intro hmem
    obtain ⟨kv, hin, hfst⟩ := List.mem_map.mp hmem
    have hc := (List.mem_filter.mp hin).1
    rw [validateProperties_eq] at hc
    obtain ⟨k2, c⟩ := kv
    have hkeymem := coerceDefs_patch_coerced_key_mem_props hc
    simp only at hfst
    rw [hfst] at hkeymem
    have hnone := hbody2none k hk
    rw [lookupKey_eq_none_iff] at hnone
    exact hnone hkeymem
  have hremnotmem : ∀ k, (lookupKey k body = none ∨ k = "fromEntityId" ∨ k = "toEntityId") →
      k ∉ ((validateProperties
        (body.filter (fun kv => kv.1 ≠ "fromEntityId" ∧ kv.1 ≠ "toEntityId"))
        rtProps typeKey true).1.filter (fun kv => kv.2 = CVal.vnull)).map Prod.fst := by
    intro k hk hmem
    obtain ⟨kv, hin, hfst⟩ := List.mem_map.mp hmem
    have hc := (List.mem_filter.mp hin).1
    rw [validateProperties_eq] at hc
    obtain ⟨k2, c⟩ := kv
    have hkeymem := coerceDefs_patch_coerced_key_mem_props hc
    simp only at hfst
    rw [hfst] at hkeymem
    have := hbody2none k hk
    rw [lookupKey_eq_none_iff] at this
    exact this hkeymem
  constructor
  · intro r2 h
    unfold updateRelation at h
    by_cases herr : (validateProperties
        (body.filter (fun kv => kv.1 ≠ "fromEntityId" ∧ kv.1 ≠ "toEntityId"))
        rtProps typeKey true).2 ≠ []
    · rw [if_pos herr] at h
      cases h
    · rw [if_neg herr] at h
      by_cases hsc : (validateProperties
            (body.filter (fun kv => kv.1 ≠ "fromEntityId" ∧ kv.1 ≠ "toEntityId"))
            rtProps typeKey true).1.filter (fun kv => kv.2 ≠ CVal.vnull) = []
          ∧ ((validateProperties
            (body.filter (fun kv => kv.1 ≠ "fromEntityId" ∧ kv.1 ≠ "toEntityId"))
            rtProps typeKey true).1.filter (fun kv => kv.2 = CVal.vnull)).map Prod.fst = []
      · rw [if_pos hsc] at h
        cases h
        exact ⟨rfl, rfl, rfl, rfl, fun k _ => rfl⟩
      · rw [if_neg hsc] at h
        cases h
        refine ⟨rfl, rfl, rfl, rfl, ?_⟩
        intro k hk
        show lookupKey k (removeKeys (mergeProps rel.props _) _) = lookupKey k rel.props
        rw [lookupKey_removeKeys_of_not_mem (hremnotmem k hk),
          lookupKey_mergeProps_of_patch_none (hsetnone k hk)]
  · intro e h
    unfold updateRelation at h
    by_cases herr : (validateProperties
        (body.filter (fun kv => kv.1 ≠ "fromEntityId" ∧ kv.1 ≠ "toEntityId"))
        rtProps typeKey true).2 ≠ []
    · rw [if_pos herr] at h
      cases h
      constructor
      · rw [lookupKey_eq_none_iff]
        intro hmem
        obtain ⟨⟨k2, m⟩, hin, hfst⟩ := List.mem_map.mp hmem
        simp only at hfst
        rcases validateProperties_errors_key_src hin with hp | ⟨pd, hinpd, hkey⟩
        · rw [hfst] at hp
          have := hbody2none "fromEntityId" (Or.inr (Or.inl rfl))
          rw [lookupKey_eq_none_iff] at this
          exact this hp
        · rw [hfst] at hkey
          exact (hkeys pd hinpd).1 hkey
      · rw [lookupKey_eq_none_iff]
        intro hmem
        obtain ⟨⟨k2, m⟩, hin, hfst⟩ := List.mem_map.mp hmem
        simp only at hfst
        rcases validateProperties_errors_key_src hin with hp | ⟨pd, hinpd, hkey⟩
        · rw [hfst] at hp
          have := hbody2none "toEntityId" (Or.inr (Or.inr rfl))
          rw [lookupKey_eq_none_iff] at this
          exact this hp
        · rw [hfst] at hkey
          exact (hkeys pd hinpd).2 hkey
    · rw [if_neg herr] at h
      by_cases hsc : (validateProperties
            (body.filter (fun kv => kv.1 ≠ "fromEntityId" ∧ kv.1 ≠ "toEntityId"))
            rtProps typeKey true).1.filter (fun kv => kv.2 ≠ CVal.vnull) = []
          ∧ ((validateProperties
            (body.filter (fun kv => kv.1 ≠ "fromEntityId" ∧ kv.1 ≠ "toEntityId"))
            rtProps typeKey true).1.filter (fun kv => kv.2 = CVal.vnull)).map Prod.fst = []
      · rw [if_pos hsc] at h
        cases h
      · rw [if_neg hsc] at h
        cases h

theorem updateRelation_endpoints_immutable_witness :
    (RelationRec.mk "r1" "works_for" "e1" "e2" [("since", CVal.vint 2021)]).fromEntityId
      = (RelationRec.mk "r1" "works_for" "e1" "e2" [("since", CVal.vint 2020)]).fromEntityId
    ∧ (RelationRec.mk "r1" "works_for" "e1" "e2" [("since", CVal.vint 2021)]).toEntityId
      = (RelationRec.mk "r1" "works_for" "e1" "e2" [("since", CVal.vint 2020)]).toEntityId := by
  have h := updateRelation_endpoints_immutable
    [PropertyDef.mk "since" "Since" none "integer" false none] "works_for"
    (RelationRec.mk "r1" "works_for" "e1" "e2" [("since", CVal.vint 2020)])
    [("fromEntityId", JValue.jstr "other"), ("since", JValue.jint 2021)]
    (by decide)
  have h2 := h.1 (RelationRec.mk "r1" "works_for" "e1" "e2" [("since", CVal.vint 2021)])
    (by rfl)
  exact ⟨h2.1, h2.2.1⟩

/-! ### C7: clause structure is independent of filter values -/

theorem toDigitsCore_eq_digits :
    ∀ (fuel n : Nat) (acc : List Char), 0 < n → n < fuel →
    Nat.toDigitsCore 10 fuel n acc = ((Nat.digits 10 n).map Nat.digitChar).reverse ++ acc := by
  intro fuel
  induction fuel with
  | zero =>
    intro n acc h0 hf
    omega
  | succ f ih =>
    intro n acc h0 hf
    by_cases hdiv : n / 10 = 0
    · have hdig : Nat.digits 10 n = [n % 10] := by
        rw [Nat.digits_def' (by norm_num : (1 : Nat) < 10) h0, hdiv, Nat.digits_zero]
      simp [Nat.toDigitsCore, hdiv, hdig]
    · have hlt : n / 10 < f := by
        have h1 : n / 10 < n := Nat.div_lt_self h0 (by norm_num)
        omega
      have hrec : Nat.toDigitsCore 10 (f + 1) n acc
          = Nat.toDigitsCore 10 f (n / 10) (Nat.digitChar (n % 10) :: acc) := by
        simp [Nat.toDigitsCore, hdiv]
      rw [hrec, ih (n / 10) (Nat.digitChar (n % 10) :: acc) (Nat.pos_of_ne_zero hdiv) hlt]
      rw [Nat.digits_def' (by norm_num : (1 : Nat) < 10) h0]
      simp

theorem repr_data_eq_digits {n : Nat} (h0 : 0 < n) :
    (Nat.repr n).data = ((Nat.digits 10 n).map Nat.digitChar).reverse := by
  show Nat.toDigitsCore 10 (n + 1) n [] = _
  rw [toDigitsCore_eq_digits (n + 1) n [] h0 (by omega), List.append_nil]

theorem digitsToNat_append_single (l : List Char) (c : Char) :
    digitsToNat (l ++ [c]) = digitsToNat l * 10 + (c.toNat - 48) := by
  simp [digitsToNat, List.foldl_append]

theorem digitChar_toNat_sub {d : Nat} (h : d < 10) : (Nat.digitChar d).toNat - 48 = d := by
  interval_cases d <;> rfl

theorem digitsToNat_rev_map {ds : List Nat} (h : ∀ d ∈ ds, d < 10) :
    digitsToNat ((ds.map Nat.digitChar).reverse) = Nat.ofDigits 10 ds := by
  induction ds with
  | nil => simp [digitsToNat, Nat.ofDigits_nil]
  | cons d rest ih =>
    rw [List.map_cons, List.reverse_cons, digitsToNat_append_single]
    rw [ih (fun x hx => h x (List.mem_cons_of_mem _ hx))]
    rw [digitChar_toNat_sub (h d (List.mem_cons_self d rest))]
    rw [Nat.ofDigits_cons]
    ring

theorem digitsToNat_repr (n : Nat) : digitsToNat (Nat.repr n).data = n := by
  rcases Nat.eq_zero_or_pos n with rfl | h0
  · rfl
  · rw [repr_data_eq_digits h0,
      digitsToNat_rev_map (fun d hd => Nat.digits_lt_base (by norm_num) hd),
      Nat.ofDigits_digits]

theorem natRepr_injective {a b : Nat} (h : Nat.repr a = Nat.repr b) : a = b := by
  have h2 := congrArg (fun s => digitsToNat s.data) h
  simpa [digitsToNat_repr] using h2

theorem fltName_injective {i j : Nat}
    (h : "flt_" ++ toString i = "flt_" ++ toString j) : i = j := by
  have hdata := congrArg String.data h
  rw [String.data_append, String.data_append] at hdata
  have h3 := List.append_cancel_left hdata
  exact natRepr_injective (congrArg String.mk h3)

theorem mem_paramNames {len n : Nat} {s : String} (h : s ∈ paramNames len n) :
    ∃ i, i < len ∧ s = "flt_" ++ toString (n + i) := by
  induction len generalizing n with
  | zero => simp [paramNames] at h
  | succ len ih =>
    rcases List.mem_cons.mp h with heq | htl
    · exact ⟨0, by omega, by simpa using heq⟩
    · obtain ⟨i, hlt, heq⟩ := ih htl
      refine ⟨i + 1, by omega, ?_⟩
      rw [heq]
      congr 1
      congr 1
      omega

theorem paramNames_nodup (len n : Nat) : (paramNames len n).Nodup := by
  induction len generalizing n with
  | zero => simp [paramNames]
  | succ len ih =>
    refine List.nodup_cons.mpr ⟨?_, ih (n + 1)⟩
    intro hmem
    obtain ⟨i, hlt, heq⟩ := mem_paramNames hmem
    have := fltName_injective heq
    omega

theorem buildFilterEntry_ok_clause (defs : List PropertyDef)
    (typeKey nodeAlias expr v : String) (n : Nat) (c : String) (x : CVal)
    (h : buildFilterEntry defs typeKey nodeAlias expr v n = .ok (c, x)) :
    c = filterClauseShape nodeAlias expr n := by
  unfold buildFilterEntry at h
  unfold filterClauseShape
  split at h
  · cases h
  · split at h
    · cases h
    · split at h
      · simp only [Except.ok.injEq, Prod.mk.injEq] at h
        exact h.1.symm
      · split at h
        · simp only [Except.ok.injEq, Prod.mk.injEq] at h
          rename_i hcont
          rw [if_pos hcont]
          exact h.1.symm
        · rename_i hcont
          rw [if_neg hcont]
          split at h
          · simp only [Except.ok.injEq, Prod.mk.injEq] at h
            exact h.1.symm
          · cases h

theorem buildFilterAux_ok_spec (defs : List PropertyDef) (typeKey nodeAlias : String) :
    ∀ (fs : List (String × String)) (n : Nat) (cls : List String)
      (ps : List (String × CVal)),
    buildFilterAux defs typeKey nodeAlias fs n = .ok (cls, ps) →
    cls = clausesOfKeys nodeAlias (fs.map Prod.fst) n
    ∧ ps.map Prod.fst = paramNames fs.length n := by
  intro fs
  induction fs with
  | nil =>
    intro n cls ps h
    simp only [buildFilterAux, Except.ok.injEq, Prod.mk.injEq] at h
    obtain ⟨h1, h2⟩ := h
    subst h1
    subst h2
    simp [clausesOfKeys, paramNames]
  | cons hd tl ih =>
    intro n cls ps h
    obtain ⟨expr, v⟩ := hd
    simp only [buildFilterAux] at h
    cases hentry : buildFilterEntry defs typeKey nodeAlias expr v n with
    | error e =>
      rw [hentry] at h
      cases h
    | ok pr =>
      obtain ⟨clause, cval⟩ := pr
      rw [hentry] at h
      cases haux : buildFilterAux defs typeKey nodeAlias tl (n + 1) with
      | error e =>
        rw [haux] at h
        cases h
      | ok pr2 =>
        obtain ⟨cls2, ps2⟩ := pr2
        rw [haux] at h
        simp only [Except.ok.injEq, Prod.mk.injEq] at h
        obtain ⟨hcls, hps⟩ := h
        subst hcls
        subst hps
        obtain ⟨ihc, ihp⟩ := ih (n + 1) cls2 ps2 haux
        constructor
        · rw [List.map_cons]
          rw [clausesOfKeys]
          rw [← ihc, buildFilterEntry_ok_clause defs typeKey nodeAlias expr v n clause cval hentry]
        · rw [List.map_cons, List.length_cons]
          rw [paramNames]
          rw [← ihp]

/-- C7: for any two accepted filter maps with the same keys (in the same
order), `_build_filter_clauses` emits identical predicate fragments, and
the values enter only through the parameter map, whose placeholder names
are the consecutively numbered `flt_0`, `flt_1`, ... and are pairwise
distinct. -/
theorem buildFilterClauses_value_independent
    (fs1 fs2 : List (String × String)) (defs : List PropertyDef)
    (typeKey nodeAlias : String)
    (hkeys : fs1.map Prod.fst = fs2.map Prod.fst)
    (cl1 cl2 : List String) (p1 p2 : List (String × CVal))
    (h1 : buildFilterClauses fs1 defs typeKey nodeAlias = .ok (cl1, p1))
    (h2 : buildFilterClauses fs2 defs typeKey nodeAlias = .ok (cl2, p2)) :
    cl1 = cl2 ∧ p1.map Prod.fst = p2.map Prod.fst
    ∧ p1.map Prod.fst = paramNames fs1.length 0
    ∧ (p1.map Prod.fst).Nodup := by
  obtain ⟨hc1, hp1⟩ := buildFilterAux_ok_spec defs typeKey nodeAlias fs1 0 cl1 p1 h1
  obtain ⟨hc2, hp2⟩ := buildFilterAux_ok_spec defs typeKey nodeAlias fs2 0 cl2 p2 h2
  have hlen : fs1.length = fs2.length := by
    rw [← List.length_map fs1 Prod.fst, hkeys, List.length_map]
  refine ⟨?_, ?_, hp1, ?_⟩
  · rw [hc1, hc2, hkeys]
  · rw [hp1, hp2, hlen]
  · rw [hp1]
    exact paramNames_nodup _ _

theorem buildFilterClauses_value_independent_witness :
    (([("flt_0", CVal.vint 25)] : List (String × CVal)).map Prod.fst).Nodup := by
  have h := buildFilterClauses_value_independent
    [("age__gt", "25")] [("age__gt", "30")]
    [PropertyDef.mk "age" "Age" none "integer" false none] "person" "n" (by rfl)
    ["n.age > $flt_0"] ["n.age > $flt_0"]
    [("flt_0", CVal.vint 25)] [("flt_0", CVal.vint 30)]
    (by rfl) (by rfl)
  exact h.2.2.2

/-! ### C10: PascalCase conversion is injective on well-formed keys -/

theorem char_eq_of_toNat_eq {c1 c2 : Char} (h : c1.toNat = c2.toNat) : c1 = c2 := by
  rw [← Char.ofNat_toNat c1, ← Char.ofNat_toNat c2, h]

theorem char_toNat_ofNat {m : Nat} (h : m.isValidChar) : (Char.ofNat m).toNat = m := by
  unfold Char.ofNat
  rw [dif_pos h]
  rfl

theorem toUpper_toNat_of_lower {c : Char} (h : isLowerAlpha c = true) :
    (Char.toUpper c).toNat = c.toNat - 32 := by
  have hb : 97 ≤ c.toNat ∧ c.toNat ≤ 122 := by
    simpa [isLowerAlpha, Bool.and_eq_true, decide_eq_true_eq] using h
  unfold Char.toUpper
  rw [if_pos ⟨hb.1, hb.2⟩]
  exact char_toNat_ofNat (Or.inl (by omega))

theorem isUpperAlpha_toUpper {c : Char} (h : isLowerAlpha c = true) :
    isUpperAlpha (Char.toUpper c) = true := by
  have hb : 97 ≤ c.toNat ∧ c.toNat ≤ 122 := by
    simpa [isLowerAlpha, Bool.and_eq_true, decide_eq_true_eq] using h
  have := toUpper_toNat_of_lower h
  simp only [isUpperAlpha, Bool.and_eq_true, decide_eq_true_eq, this]
  omega

theorem toUpper_inj_on_lower {c1 c2 : Char} (h1 : isLowerAlpha c1 = true)
    (h2 : isLowerAlpha c2 = true) (h : Char.toUpper c1 = Char.toUpper c2) : c1 = c2 := by
  have hb1 : 97 ≤ c1.toNat ∧ c1.toNat ≤ 122 := by
    simpa [isLowerAlpha, Bool.and_eq_true, decide_eq_true_eq] using h1
  have hb2 : 97 ≤ c2.toNat ∧ c2.toNat ≤ 122 := by
    simpa [isLowerAlpha, Bool.and_eq_true, decide_eq_true_eq] using h2
  have hn := congrArg Char.toNat h
  rw [toUpper_toNat_of_lower h1, toUpper_toNat_of_lower h2] at hn
  exact char_eq_of_toNat_eq (by omega)

theorem toLower_eq_self_of_lowerdigit {c : Char}
    (h : (isLowerAlpha c || isDigitChar c) = true) : Char.toLower c = c := by
  have hb : (97 ≤ c.toNat ∧ c.toNat ≤ 122) ∨ (48 ≤ c.toNat ∧ c.toNat ≤ 57) := by
    rcases Bool.or_eq_true_iff.mp h with h2 | h2
    · exact Or.inl (by simpa [isLowerAlpha, Bool.and_eq_true, decide_eq_true_eq] using h2)
    · exact Or.inr (by simpa [isDigitChar, Bool.and_eq_true, decide_eq_true_eq] using h2)
  unfold Char.toLower
  rw [if_neg (by omega)]

theorem not_upper_of_lowerdigit {d : Char}
    (h : (isLowerAlpha d || isDigitChar d) = true) : isUpperAlpha d = false := by
  have hb : (97 ≤ d.toNat ∧ d.toNat ≤ 122) ∨ (48 ≤ d.toNat ∧ d.toNat ≤ 57) := by
    rcases Bool.or_eq_true_iff.mp h with h2 | h2
    · exact Or.inl (by simpa [isLowerAlpha, Bool.and_eq_true, decide_eq_true_eq] using h2)
    · exact Or.inr (by simpa [isDigitChar, Bool.and_eq_true, decide_eq_true_eq] using h2)
  cases hcase : isUpperAlpha d with
  | false => rfl
  | true =>
    exfalso
    rw [isUpperAlpha, Bool.and_eq_true] at hcase
    simp only [decide_eq_true_eq] at hcase
    omega

theorem map_toLower_fix {l : List Char}
    (h : l.all (fun d => isLowerAlpha d || isDigitChar d) = true) :
    l.map Char.toLower = l := by
  induction l with
  | nil => rfl
  | cons c rest ih =>
    rw [List.all_cons, Bool.and_eq_true] at h
    rw [List.map_cons, toLower_eq_self_of_lowerdigit h.1, ih h.2]

theorem pyCapitalize_wf {s : List Char} (hs : isWfSeg s = true) :
    ∃ c t, s = c :: t ∧ pyCapitalize s = Char.toUpper c :: t ∧ isLowerAlpha c = true
      ∧ t.all (fun d => isLowerAlpha d || isDigitChar d) = true := by
  cases s with
  | nil => simp [isWfSeg] at hs
  | cons c t =>
    rw [isWfSeg, Bool.and_eq_true] at hs
    exact ⟨c, t, rfl, by rw [pyCapitalize, map_toLower_fix hs.2], hs.1, hs.2⟩

theorem join_caps_head_upper :
    ∀ {xs : List (List Char)}, (∀ s ∈ xs, isWfSeg s = true) →
    ∀ {c : Char} {rest : List Char},
    (xs.map pyCapitalize).flatten = c :: rest → isUpperAlpha c = true := by
  intro xs hwf c rest hjoin
  cases xs with
  | nil => simp at hjoin
  | cons x xs2 =>
    obtain ⟨cx, tx, hx, hcap, hlow, -⟩ := pyCapitalize_wf (hwf x (List.mem_cons_self x xs2))
    rw [List.map_cons, List.flatten_cons, hcap] at hjoin
    rw [List.cons_append] at hjoin
    have : Char.toUpper cx = c := (List.cons.injEq .. ▸ hjoin).1
    rw [← this]
    exact isUpperAlpha_toUpper hlow

theorem tail_split :
    ∀ (tx ty : List Char) (xs ys : List (List Char)),
    tx.all (fun d => isLowerAlpha d || isDigitChar d) = true →
    ty.all (fun d => isLowerAlpha d || isDigitChar d) = true →
    (∀ s ∈ xs, isWfSeg s = true) → (∀ s ∈ ys, isWfSeg s = true) →
    tx ++ (xs.map pyCapitalize).flatten = ty ++ (ys.map pyCapitalize).flatten →
    tx = ty ∧ (xs.map pyCapitalize).flatten = (ys.map pyCapitalize).flatten := by
  intro tx
  induction tx with
  | nil =>
    intro ty xs ys htx hty hxs hys h
    cases ty with
    | nil => exact ⟨rfl, by simpa using h⟩
    | cons d ty2 =>
      exfalso
      rw [List.nil_append, List.cons_append] at h
      have hupper := join_caps_head_upper hxs h
      rw [List.all_cons, Bool.and_eq_true] at hty
      rw [not_upper_of_lowerdigit hty.1] at hupper
      cases hupper
  | cons a tx2 ih =>
    intro ty xs ys htx hty hxs hys h
    cases ty with
    | nil =>
      exfalso
      rw [List.nil_append, List.cons_append] at h
      have hupper := join_caps_head_upper hys h.symm
      rw [List.all_cons, Bool.and_eq_true] at htx
      rw [not_upper_of_lowerdigit htx.1] at hupper
      cases hupper
    | cons b ty2 =>
      rw [List.cons_append, List.cons_append] at h
      have hab : a = b := (List.cons.injEq .. ▸ h).1
      have htail := (List.cons.injEq .. ▸ h).2
      rw [List.all_cons, Bool.and_eq_true] at htx hty
      obtain ⟨h1, h2⟩ := ih ty2 xs ys htx.2 hty.2 hxs hys htail
      exact ⟨by rw [hab, h1], h2⟩

theorem join_caps_uniq :
    ∀ (xs ys : List (List Char)),
    (∀ s ∈ xs, isWfSeg s = true) → (∀ s ∈ ys, isWfSeg s = true) →
    (xs.map pyCapitalize).flatten = (ys.map pyCapitalize).flatten → xs = ys := by
  intro xs
  induction xs with
  | nil =>
    intro ys hxs hys h
    cases ys with
    | nil => rfl
    | cons y ys2 =>
      exfalso
      obtain ⟨cy, ty, hy, hcap, -, -⟩ := pyCapitalize_wf (hys y (List.mem_cons_self y ys2))
      rw [List.map_nil, List.flatten_nil, List.map_cons, List.flatten_cons, hcap,
        List.cons_append] at h
      cases h
  | cons x xs2 ih =>
    intro ys hxs hys h
    cases ys with
    | nil =>
      exfalso
      obtain ⟨cx, tx, hx, hcap, -, -⟩ := pyCapitalize_wf (hxs x (List.mem_cons_self x xs2))
      rw [List.map_nil, List.flatten_nil, List.map_cons, List.flatten_cons, hcap,
        List.cons_append] at h
      cases h
    | cons y ys2 =>
      obtain ⟨cx, tx, hx, hcapx, hlowx, htx⟩ :=
        pyCapitalize_wf (hxs x (List.mem_cons_self x xs2))
      obtain ⟨cy, ty, hy, hcapy, hlowy, hty⟩ :=
        pyCapitalize_wf (hys y (List.mem_cons_self y ys2))
      rw [List.map_cons, List.flatten_cons, hcapx, List.cons_append,
        List.map_cons, List.flatten_cons, hcapy, List.cons_append] at h
      have hc : Char.toUpper cx = Char.toUpper cy := (List.cons.injEq .. ▸ h).1
      have htails := (List.cons.injEq .. ▸ h).2
      have hcc : cx = cy := toUpper_inj_on_lower hlowx hlowy hc
      obtain ⟨hteq, hjeq⟩ := tail_split tx ty xs2 ys2 htx hty
        (fun s hs => hxs s (List.mem_cons_of_mem _ hs))
        (fun s hs => hys s (List.mem_cons_of_mem _ hs)) htails
      have hxy : x = y := by rw [hx, hy, hcc, hteq]
      rw [hxy, ih ys2 (fun s hs => hxs s (List.mem_cons_of_mem _ hs))
        (fun s hs => hys s (List.mem_cons_of_mem _ hs)) hjeq]

theorem pySplit_ne_nil : ∀ l : List Char, pySplitUnderscore l ≠ [] := by
  intro l
  cases l with
  | nil => simp [pySplitUnderscore]
  | cons c rest =>
    rw [pySplitUnderscore]
    by_cases hc : c = '_'
    · simp [hc]
    · rw [if_neg hc]
      cases hrec : pySplitUnderscore rest with
      | nil => simp
      | cons s ss => simp

theorem joinUnderscore_cons_cons (c : Char) (s : List Char) (ss : List (List Char)) :
    joinUnderscore ((c :: s) :: ss) = c :: joinUnderscore (s :: ss) := by
  cases ss with
  | nil => rfl
  | cons s2 ss2 => rfl

theorem joinUnderscore_pySplit : ∀ l : List Char, joinUnderscore (pySplitUnderscore l) = l := by
  intro l
  induction l with
  | nil => rfl
  | cons c rest ih =>
    rw [pySplitUnderscore]
    by_cases hc : c = '_'
    · rw [if_pos hc]
      cases hrec : pySplitUnderscore rest with
      | nil => exact absurd hrec (pySplit_ne_nil rest)
      | cons s ss =>
        rw [joinUnderscore]
        · rw [hrec] at ih
          rw [ih, hc]
          simp
        · intro hx
          cases hx
    · rw [if_neg hc]
      cases hrec : pySplitUnderscore rest with
      | nil => exact absurd hrec (pySplit_ne_nil rest)
      | cons s ss =>
        rw [joinUnderscore_cons_cons]
        rw [hrec] at ih
        rw [ih]

theorem string_join_data :
    ∀ (ss : List String) (acc : String),
    (ss.foldl (fun a b => a ++ b) acc).data = acc.data ++ (ss.map String.data).flatten := by
  intro ss
  induction ss with
  | nil => simp
  | cons s rest ih =>
    intro acc
    rw [List.foldl_cons, ih, List.map_cons, List.flatten_cons]
    rw [String.data_append, List.append_assoc]

theorem toPascalCase_data (k : String) :
    (toPascalCase k).data = ((pySplitUnderscore k.data).map pyCapitalize).flatten := by
  unfold toPascalCase
  unfold String.join
  rw [string_join_data]
  simp only [List.map_map]
  have : ((pySplitUnderscore k.data).map
      (String.data ∘ fun seg => String.mk (pyCapitalize seg)))
      = (pySplitUnderscore k.data).map pyCapitalize := by
    apply List.map_congr_left
    intro s _
    rfl
  rw [this]
  rfl

/-- C10: `to_pascal_case` is injective on well-formed snake_case keys:
any two distinct keys whose underscore-separated segments are nonempty,
start with a lowercase letter, and continue with lowercase letters or
digits receive distinct PascalCase storage labels (segment boundaries
are recoverable from the capitalization). -/
theorem toPascalCase_injective_on_wellformed (k1 k2 : String)
    (h1 : wellFormedKey k1 = true) (h2 : wellFormedKey k2 = true)
    (h : toPascalCase k1 = toPascalCase k2) : k1 = k2 := by
  have hdata := congrArg String.data h
  rw [toPascalCase_data, toPascalCase_data] at hdata
  rw [wellFormedKey, List.all_eq_true] at h1 h2
  have hsegs := join_caps_uniq (pySplitUnderscore k1.data) (pySplitUnderscore k2.data)
    h1 h2 hdata
  have hld : k1.data = k2.data := by
    rw [← joinUnderscore_pySplit k1.data, ← joinUnderscore_pySplit k2.data, hsegs]
  exact congrArg String.mk hld

theorem toPascalCase_injective_on_wellformed_witness :
    wellFormedKey "research_paper" = true
    ∧ ("research_paper" : String) = "research_paper" :=
  ⟨by rfl, toPascalCase_injective_on_wellformed "research_paper" "research_paper"
    (by rfl) (by rfl) rfl⟩

end OntoForge
